import Mathlib

/-!
Verification development for the Sectify protected-audio core.

The Python source is shallowly embedded: pure functions become Lean
functions, the stateful managers become explicit state passing, machine
floats of the CML lattice are modelled by exact rationals, and fallible
code returns `Except`.  Library crypto primitives (PBKDF2, BLAKE2b,
HMAC-SHA256) are not part of the repository; they are passed in as an
abstract `CryptoPrims` record, so every theorem quantifies over them.
-/

namespace Sectify

/-- Byte values are natural numbers (constrained to be below 256 where the
source guarantees it). -/
abbrev Byte := Nat

/-- The three performance modes selected by `CHAOTIC_PERFORMANCE_MODE`
when `chaotic_cipher.py` is imported. -/
inductive PerformanceMode
  | fast
  | balanced
  | secure
deriving DecidableEq, Repr

open PerformanceMode

/-- `LATTICE_SIZE` per mode (chaotic_cipher.py lines 20-34). -/
def LATTICE_SIZE : PerformanceMode → Nat
  | fast => 1
  | secure => 16
  | balanced => 8

/-- `TRANSIENT_STEPS` per mode. -/
def TRANSIENT_STEPS : PerformanceMode → Nat
  | fast => 5
  | secure => 1000
  | balanced => 500

/-- `PBKDF2_ITERATIONS` per mode. -/
def PBKDF2_ITERATIONS : PerformanceMode → Nat
  | fast => 10
  | secure => 10000
  | balanced => 5000

/-- `CHUNK_SIZE` of the keystream emission loop (line 113). -/
def CHUNK_SIZE : PerformanceMode → Nat
  | fast => 8192
  | _ => 2048

/-- `scramble_freq` of the transient loop (line 105). -/
def scramble_freq : PerformanceMode → Nat
  | fast => 50
  | _ => 100

/-- External crypto primitives used by `chaotic_cipher.py`.  They live in
the Python standard library and the `cryptography` package, not in this
repository, so they are abstract parameters of the embedding. -/
structure CryptoPrims where
  /-- PBKDF2-HMAC-SHA256: output length, salt, iteration count, password. -/
  pbkdf2 : Nat → List Byte → Nat → String → List Byte
  /-- BLAKE2b: digest size, personalization string, data. -/
  blake2b : Nat → String → List Byte → List Byte
  /-- HMAC-SHA256: key, message. -/
  hmacSha256 : List Byte → List Byte → List Byte

/-- Python `int(q)`: truncation of a rational toward zero. -/
def pytrunc (q : ℚ) : ℤ :=
  if 0 ≤ q then q.floor else -((-q).floor)

/-- Python `z & 0xFF` on an arbitrary-precision integer. -/
def pyAnd255 (z : ℤ) : Nat := (z % 256).toNat

/-- Python `int.from_bytes(bs, 'big')`. -/
def fromBytesBE (bs : List Byte) : Nat := bs.foldl (fun a b => a * 256 + b) 0

/-- Bytes of the ASCII string constants used as salts/domains. -/
def strBytes (s : String) : List Byte := s.data.map Char.toNat

/-- `np.roll(v, 1)`: cyclic shift moving the last entry to the front. -/
def npRollPos (l : List ℚ) : List ℚ := l.drop (l.length - 1) ++ l.take (l.length - 1)

/-- `np.roll(v, -1)`: cyclic shift moving the first entry to the back. -/
def npRollNeg (l : List ℚ) : List ℚ := l.drop 1 ++ l.take 1

/-- One evolution step of the coupled map lattice
(chaotic_cipher.py lines 98-102 and 119-122): apply the logistic map
sitewise, then mix each site with the average of its rolled neighbours. -/
def cmlStep (r : List ℚ) (epsilon : ℚ) (x : List ℚ) : List ℚ :=
  let fx := List.zipWith (fun ri xi => ri * xi * (1 - xi)) r x
  let coupled := List.zipWith (fun a b => (a + b) * (1 / 2)) (npRollPos fx) (npRollNeg fx)
  List.zipWith (fun a b => (1 - epsilon) * a + epsilon * b) fx coupled

/-- The transient loop body: evolve once, then rotate on scramble steps. -/
def transientStep (mode : PerformanceMode) (r : List ℚ) (epsilon : ℚ) (i : Nat)
    (x : List ℚ) : List ℚ :=
  let x1 := cmlStep r epsilon x
  if i % scramble_freq mode == 0 then npRollPos x1 else x1

/-- The whole transient phase (`TRANSIENT_STEPS` indexed iterations). -/
def transientPhase (mode : PerformanceMode) (r : List ℚ) (epsilon : ℚ) (x : List ℚ) : List ℚ :=
  (List.range (TRANSIENT_STEPS mode)).foldl
    (fun acc i => transientStep mode r epsilon i acc) x

/-- The per-byte output function (lines 125-141): XOR over the lattice of
the truncated site values, rotated sitewise outside fast mode, followed by
the bit-diffusion XORs outside fast mode, and a final `& 0xFF`. -/
def outputByte (mode : PerformanceMode) (x : List ℚ) : Byte :=
  let byte0 := (List.range (LATTICE_SIZE mode)).foldl
    (fun acc j =>
      let val := pyAnd255 (pytrunc (x.getD j 0 * 255))
      if mode = fast then
        acc ^^^ val
      else
        acc ^^^ ((val <<< (j % 8) ||| val >>> (8 - j % 8)) &&& 255)) 0
  let byte1 := if mode = fast then byte0 else
    let b1 := byte0 ^^^ ((byte0 <<< 1) &&& 255)
    b1 ^^^ ((b1 >>> 1) &&& 255)
  byte1 &&& 255

/-- The inner per-byte loop of a chunk: evolve one step, emit one byte,
thread the lattice state. -/
def emitBytes (mode : PerformanceMode) (r : List ℚ) (epsilon : ℚ) :
    Nat → List ℚ → List Byte × List ℚ
  | 0, x => ([], x)
  | n + 1, x =>
      let x1 := cmlStep r epsilon x
      let b := outputByte mode x1
      let rest := emitBytes mode r epsilon n x1
      (b :: rest.1, rest.2)

/-- The chunked emission loop (lines 113-143), generalized over the chunk
size `c`.  The source always calls it with `c = CHUNK_SIZE mode`; `c = 0`
cannot occur there (Python `range` would reject step 0) and is mapped to
the empty output for totality. -/
def genChunked (mode : PerformanceMode) (r : List ℚ) (epsilon : ℚ) (c : Nat) :
    Nat → List ℚ → List Byte
  | n, x =>
    if h : n = 0 ∨ c = 0 then [] else
      let k := min c n
      let step := emitBytes mode r epsilon k x
      step.1 ++ genChunked mode r epsilon c (n - k) step.2
termination_by n _ => n
decreasing_by
  simp only [not_or] at h
  have hk : 0 < min c n := lt_min (Nat.pos_of_ne_zero h.2) (Nat.pos_of_ne_zero h.1)
  omega

/-- `_generate_keystream_cml` with the chunk size exposed as a parameter. -/
def keystreamWithChunk (mode : PerformanceMode) (x r : List ℚ) (epsilon : ℚ)
    (c length : Nat) : List Byte :=
  genChunked mode r epsilon c length (transientPhase mode r epsilon x)

/-- `_generate_keystream_cml(x, r, epsilon, length)`: transient phase, then
chunked byte emission with the mode's chunk size. -/
def _generate_keystream_cml (mode : PerformanceMode) (x r : List ℚ) (epsilon : ℚ)
    (length : Nat) : List Byte :=
  keystreamWithChunk mode x r epsilon (CHUNK_SIZE mode) length

/-- A derived CML state: initial sites, parameters, coupling, salt. -/
structure CMLState where
  x : List ℚ
  r : List ℚ
  epsilon : ℚ
  salt : List Byte
deriving DecidableEq, Repr

/-- `_initialize_cml(secret_key, salt)` (lines 36-89).  The salt, random in
the source when absent, is always an explicit argument here. -/
def _initialize_cml (mode : PerformanceMode) (prims : CryptoPrims)
    (secret_key : String) (salt : List Byte) : CMLState :=
  let master_key := prims.pbkdf2 64 salt (PBKDF2_ITERATIONS mode) secret_key
  let x_key := prims.blake2b 32 "CML_INIT_STATE" master_key
  let r_key := prims.blake2b 32 "CML_PARAMETERS" master_key
  let eps_key := prims.blake2b 32 "CML_COUPLING" master_key
  let seedAt := fun (key : List Byte) (i : Nat) =>
    if i * 2 + 1 < key.length then (key.drop (i * 2)).take 2
    else (key.drop (i % 16)).take 2
  let x := (List.range (LATTICE_SIZE mode)).map (fun i =>
    (1 / 10 : ℚ) + (fromBytesBE (seedAt x_key i) : ℚ) / 65535 * (8 / 10))
  let r := (List.range (LATTICE_SIZE mode)).map (fun i =>
    (38 / 10 : ℚ) + (fromBytesBE (seedAt r_key i) : ℚ) / 65535 * (2 / 10))
  let eps_val := fromBytesBE (eps_key.take 4)
  let epsilon := (1 / 10 : ℚ) + (eps_val : ℚ) / (2 ^ 32 - 1) * (3 / 10)
  ⟨x, r, epsilon, salt⟩

/-- The HMAC key derivation shared by `encrypt` and `decrypt`
(lines 165-171 and 199-205). -/
def hmacKeyOf (mode : PerformanceMode) (prims : CryptoPrims)
    (secret_key : String) (salt : List Byte) : List Byte :=
  prims.pbkdf2 32 (salt ++ strBytes "HMAC_DERIVE") (PBKDF2_ITERATIONS mode) secret_key

/-- `encrypt(data, secret_key)` (lines 147-179).  Output layout:
salt(32) ++ mac(32) ++ ciphertext. -/
def encrypt (mode : PerformanceMode) (prims : CryptoPrims) (salt : List Byte)
    (secret_key : String) (data : List Byte) : List Byte :=
  let st := _initialize_cml mode prims secret_key salt
  let keystream := _generate_keystream_cml mode st.x st.r st.epsilon data.length
  let encrypted_data := List.zipWith (fun b k => b ^^^ k) data keystream
  let hmac_key := hmacKeyOf mode prims secret_key st.salt
  let mac := prims.hmacSha256 hmac_key (st.salt ++ encrypted_data)
  st.salt ++ mac ++ encrypted_data

/-- Error kinds raised by the cipher layer (`ValueError` variants in the
source, distinguished by their messages). -/
inductive CipherError
  | invalidTooShort
  | integrityFailure
  | weakKey
  | dataTooLarge
deriving DecidableEq, Repr

/-- `decrypt(data, secret_key)` (lines 181-219): length check, split,
re-derive the HMAC key, constant-time MAC comparison, then regenerate the
keystream from the stored salt and XOR. -/
def decrypt (mode : PerformanceMode) (prims : CryptoPrims)
    (secret_key : String) (data : List Byte) : Except CipherError (List Byte) :=
  if data.length < 64 then .error .invalidTooShort else
    let salt := data.take 32
    let received_mac := (data.drop 32).take 32
    let encrypted_data := data.drop 64
    let hmac_key := hmacKeyOf mode prims secret_key salt
    let expected_mac := prims.hmacSha256 hmac_key (salt ++ encrypted_data)
    if expected_mac = received_mac then
      let st := _initialize_cml mode prims secret_key salt
      let keystream := _generate_keystream_cml mode st.x st.r st.epsilon encrypted_data.length
      .ok (List.zipWith (fun b k => b ^^^ k) encrypted_data keystream)
    else .error .integrityFailure

/-- `validate_key_strength(secret_key)` (lines 228-245). -/
def validate_key_strength (secret_key : String) : Bool :=
  if secret_key.length < 12 then false else
    let has_lower := secret_key.data.any Char.isLower
    let has_upper := secret_key.data.any Char.isUpper
    let has_digit := secret_key.data.any Char.isDigit
    let has_special := secret_key.data.any (fun c => !c.isAlphanum)
    let char_types := (if has_lower then 1 else 0) + (if has_upper then 1 else 0)
      + (if has_digit then 1 else 0) + (if has_special then 1 else 0)
    decide (3 ≤ char_types)

/-- `analyze_chaos_parameters` (lines 247-280), reduced to its
`is_chaotic` verdict: true exactly when no warning is appended. -/
def analyze_chaos_parameters (x r : List ℚ) (epsilon : ℚ) : Bool :=
  r.all (fun rv => decide (357 / 100 ≤ rv ∧ rv ≤ 4))
    && x.all (fun xv => decide (1 / 20 < xv ∧ xv < 19 / 20))
    && decide (1 / 20 ≤ epsilon ∧ epsilon ≤ 1 / 2)

/-- `encrypt_with_validation(data, secret_key)` (lines 282-306).  The two
independent fresh salts drawn by its two `_initialize_cml` calls (one
directly, one inside `encrypt`) are the explicit arguments `saltV` and
`saltE`. -/
def encrypt_with_validation (mode : PerformanceMode) (prims : CryptoPrims)
    (saltV saltE : List Byte) (secret_key : String) (data : List Byte) :
    Except CipherError (List Byte) :=
  if !validate_key_strength secret_key then .error .weakKey
  else if data.length > 50 * 1024 * 1024 then .error .dataTooLarge
  else
    let stV := _initialize_cml mode prims secret_key saltV
    let _chaos_ok := analyze_chaos_parameters stV.x stV.r stV.epsilon
    .ok (encrypt mode prims saltE secret_key data)

/-- `decrypt_with_validation(data, secret_key)` (lines 308-315). -/
def decrypt_with_validation (mode : PerformanceMode) (prims : CryptoPrims)
    (secret_key : String) (data : List Byte) : Except CipherError (List Byte) :=
  if !validate_key_strength secret_key then .error .weakKey
  else decrypt mode prims secret_key data

/-! ### Keystream structure lemmas -/

theorem emitBytes_length (mode : PerformanceMode) (r : List ℚ) (epsilon : ℚ) :
    ∀ n x, (emitBytes mode r epsilon n x).1.length = n := by
  intro n
  induction n with
  | zero => intro x; rfl
  | succ k ih => intro x; simp [emitBytes, ih]

theorem emitBytes_add (mode : PerformanceMode) (r : List ℚ) (epsilon : ℚ) :
    ∀ a b x, emitBytes mode r epsilon (a + b) x =
      ((emitBytes mode r epsilon a x).1 ++
        (emitBytes mode r epsilon b (emitBytes mode r epsilon a x).2).1,
       (emitBytes mode r epsilon b (emitBytes mode r epsilon a x).2).2) := by
  intro a
  induction a with
  | zero => intro b x; simp [emitBytes]
  | succ k ih =>
      intro b x
      have : k + 1 + b = (k + b) + 1 := by omega
      rw [this]
      simp only [emitBytes, ih]
      simp

theorem genChunked_eq_emitBytes (mode : PerformanceMode) (r : List ℚ) (epsilon : ℚ)
    (c : Nat) (hc : 0 < c) :
    ∀ n x, genChunked mode r epsilon c n x = (emitBytes mode r epsilon n x).1 := by
  intro n
  induction n using Nat.strong_induction_on with
  | _ n ih =>
    intro x
    rw [genChunked]
    by_cases hn : n = 0
    · subst hn; simp [emitBytes]
    · have hcond : ¬(n = 0 ∨ c = 0) := by omega
      rw [dif_neg hcond]
      show (emitBytes mode r epsilon (min c n) x).1
          ++ genChunked mode r epsilon c (n - min c n) (emitBytes mode r epsilon (min c n) x).2
        = (emitBytes mode r epsilon n x).1
      have hlt : n - min c n < n := by omega
      rw [ih (n - min c n) hlt]
      have hadd := congrArg Prod.fst (emitBytes_add mode r epsilon (min c n) (n - min c n) x)
      have hsplit : min c n + (n - min c n) = n := by omega
      rw [hsplit] at hadd
      exact hadd.symm

theorem keystream_length (mode : PerformanceMode) (x r : List ℚ) (epsilon : ℚ) (n : Nat) :
    (_generate_keystream_cml mode x r epsilon n).length = n := by
  have hc : 0 < CHUNK_SIZE mode := by cases mode <;> simp [CHUNK_SIZE]
  unfold _generate_keystream_cml keystreamWithChunk
  rw [genChunked_eq_emitBytes mode r epsilon _ hc, emitBytes_length]

theorem zipWith_xor_cancel : ∀ (d k : List Byte), k.length = d.length →
    List.zipWith (fun b k => b ^^^ k) (List.zipWith (fun b k => b ^^^ k) d k) k = d := by
  intro d
  induction d with
  | nil => intro k _; simp
  | cons a d ih =>
      intro k hk
      cases k with
      | nil => simp at hk
      | cons b k =>
          simp only [List.zipWith, List.cons.injEq]
          constructor
          · exact Nat.xor_cancel_right b a
          · exact ih k (by simpa using hk)

/-- C8.  Chunking does not change the keystream: for every CML state, the
chunked generation loop produces the same bytes for every positive chunk
size c as the source generator does with its mode-specific chunk size (and
in particular as a single chunk of n bytes would), because the lattice
state is threaded across chunk boundaries; and for n ≤ m the length-n
keystream is a prefix of the length-m keystream from the same state. -/
theorem keystream_chunk_invariance (mode : PerformanceMode) (x r : List ℚ) (epsilon : ℚ)
    (c n m : Nat) (hc : 0 < c) (hnm : n ≤ m) :
    keystreamWithChunk mode x r epsilon c n = _generate_keystream_cml mode x r epsilon n
    ∧ ∃ t, _generate_keystream_cml mode x r epsilon n ++ t
        = _generate_keystream_cml mode x r epsilon m := by
  have hc0 : 0 < CHUNK_SIZE mode := by cases mode <;> simp [CHUNK_SIZE]
  constructor
  · unfold keystreamWithChunk _generate_keystream_cml
    unfold keystreamWithChunk
    rw [genChunked_eq_emitBytes mode r epsilon c hc,
      genChunked_eq_emitBytes mode r epsilon _ hc0]
  · refine ⟨(emitBytes mode r epsilon (m - n) (emitBytes mode r epsilon n
      (transientPhase mode r epsilon x)).2).1, ?_⟩
    unfold _generate_keystream_cml keystreamWithChunk
    rw [genChunked_eq_emitBytes mode r epsilon _ hc0,
      genChunked_eq_emitBytes mode r epsilon _ hc0]
    have hadd := congrArg Prod.fst
      (emitBytes_add mode r epsilon n (m - n) (transientPhase mode r epsilon x))
    have hsplit : n + (m - n) = m := by omega
    rw [hsplit] at hadd
    exact hadd.symm

/-- Closed instance of `keystream_chunk_invariance` at concrete inputs. -/
theorem keystream_chunk_invariance_witness :
    (0 < 2 ∧ 3 ≤ 5) ∧
    (keystreamWithChunk .fast [1/2] [2] (1/4) 2 3
        = _generate_keystream_cml .fast [1/2] [2] (1/4) 3
      ∧ ∃ t, _generate_keystream_cml .fast [1/2] [2] (1/4) 3 ++ t
          = _generate_keystream_cml .fast [1/2] [2] (1/4) 5) :=
  ⟨⟨by decide, by decide⟩,
    keystream_chunk_invariance .fast [1/2] [2] (1/4) 2 3 5 (by decide) (by decide)⟩

/-! ### Authenticated-cipher round trip -/

/-- The three regions of a ProtectedBlob as sliced by `decrypt`
(chaotic_cipher.py lines 193-196): local `salt`. -/
def blobSalt (b : List Byte) : List Byte := b.take 32

/-- Blob region `received_mac` (line 195). -/
def blobMac (b : List Byte) : List Byte := (b.drop 32).take 32

/-- Blob region `encrypted_data` (line 196). -/
def blobCipher (b : List Byte) : List Byte := b.drop 64

/-- The MAC `decrypt` recomputes over a received blob (lines 198-209). -/
def recomputedMac (mode : PerformanceMode) (prims : CryptoPrims) (secret_key : String)
    (b : List Byte) : List Byte :=
  prims.hmacSha256 (hmacKeyOf mode prims secret_key (blobSalt b)) (blobSalt b ++ blobCipher b)

theorem decrypt_eq_check (mode : PerformanceMode) (prims : CryptoPrims)
    (secret_key : String) (b : List Byte) (hlen : ¬b.length < 64) :
    decrypt mode prims secret_key b =
      (if recomputedMac mode prims secret_key b = blobMac b then
        Except.ok (List.zipWith (fun b k => b ^^^ k) (blobCipher b)
          (_generate_keystream_cml mode
            (_initialize_cml mode prims secret_key (blobSalt b)).x
            (_initialize_cml mode prims secret_key (blobSalt b)).r
            (_initialize_cml mode prims secret_key (blobSalt b)).epsilon
            (blobCipher b).length))
      else Except.error CipherError.integrityFailure) := by
  rw [decrypt, if_neg hlen]
  rfl

theorem encrypt_layout (mode : PerformanceMode) (prims : CryptoPrims) (salt : List Byte)
    (secret_key : String) (data : List Byte) :
    encrypt mode prims salt secret_key data =
      salt ++
        prims.hmacSha256 (hmacKeyOf mode prims secret_key salt)
          (salt ++ List.zipWith (fun b k => b ^^^ k) data
            (_generate_keystream_cml mode
              (_initialize_cml mode prims secret_key salt).x
              (_initialize_cml mode prims secret_key salt).r
              (_initialize_cml mode prims secret_key salt).epsilon data.length)) ++
        List.zipWith (fun b k => b ^^^ k) data
          (_generate_keystream_cml mode
            (_initialize_cml mode prims secret_key salt).x
            (_initialize_cml mode prims secret_key salt).r
            (_initialize_cml mode prims secret_key salt).epsilon data.length) := by
  rfl

theorem decrypt_encrypt (mode : PerformanceMode) (prims : CryptoPrims) (salt : List Byte)
    (secret_key : String) (data : List Byte)
    (hsalt : salt.length = 32)
    (hmac32 : ∀ k msg, (prims.hmacSha256 k msg).length = 32) :
    decrypt mode prims secret_key (encrypt mode prims salt secret_key data)
      = Except.ok data := by
  set st := _initialize_cml mode prims secret_key salt with hst
  set K := _generate_keystream_cml mode st.x st.r st.epsilon data.length with hKdef
  have hKlen : K.length = data.length := keystream_length ..
  set C := List.zipWith (fun b k => b ^^^ k) data K with hCdef
  have hClen : C.length = data.length := by
    rw [hCdef, List.length_zipWith, hKlen, Nat.min_self]
  set mac := prims.hmacSha256 (hmacKeyOf mode prims secret_key salt) (salt ++ C) with hmacdef
  have hmaclen : mac.length = 32 := hmac32 _ _
  have hB : encrypt mode prims salt secret_key data = salt ++ mac ++ C := rfl
  have hBsalt : blobSalt (salt ++ mac ++ C) = salt := by
    rw [blobSalt, List.append_assoc]; exact List.take_left' hsalt
  have hBmac : blobMac (salt ++ mac ++ C) = mac := by
    rw [blobMac, List.append_assoc, List.drop_left' hsalt]; exact List.take_left' hmaclen
  have hBC : blobCipher (salt ++ mac ++ C) = C := by
    rw [blobCipher]
    exact List.drop_left' (by rw [List.length_append, hsalt, hmaclen])
  have hlen : ¬(salt ++ mac ++ C).length < 64 := by
    simp only [List.length_append, hsalt, hmaclen]; omega
  rw [hB, decrypt_eq_check mode prims secret_key _ hlen, recomputedMac, hBsalt, hBmac, hBC]
  rw [if_pos hmacdef.symm, hClen, ← hst, ← hKdef]
  exact congrArg Except.ok (zipWith_xor_cancel data K hKlen)

/-- C1.  Round trip of the authenticated cipher: for every mode, every
password accepted by the strength rule, every plaintext of at most 50 MiB,
and every pair of fresh salts drawn by validated encryption (`saltE` being
the 32-byte one stored in the blob), decrypting the produced blob under
the same password returns the plaintext exactly, because decrypt
re-derives the identical keystream from the stored salt and XOR cancels.
The abstract HMAC is only required to produce 32-byte tags, as
HMAC-SHA256 does. -/
theorem encrypt_decrypt_roundtrip (mode : PerformanceMode) (prims : CryptoPrims)
    (saltV saltE : List Byte) (secret_key : String) (data : List Byte)
    (hstrong : validate_key_strength secret_key = true)
    (hsize : data.length ≤ 50 * 1024 * 1024)
    (hsalt : saltE.length = 32)
    (hmac32 : ∀ k msg, (prims.hmacSha256 k msg).length = 32) :
    (encrypt_with_validation mode prims saltV saltE secret_key data).bind
        (decrypt_with_validation mode prims secret_key)
      = Except.ok data := by
  have hsize2 : ¬data.length > 50 * 1024 * 1024 := by omega
  rw [encrypt_with_validation, hstrong]
  simp only [Bool.not_true, Bool.false_eq_true, if_false, if_neg hsize2]
  show decrypt_with_validation mode prims secret_key
    (encrypt mode prims saltE secret_key data) = Except.ok data
  rw [decrypt_with_validation, hstrong]
  simp only [Bool.not_true, Bool.false_eq_true, if_false]
  exact decrypt_encrypt mode prims saltE secret_key data hsalt hmac32

/-- A concrete, fully computable instantiation of the abstract crypto
primitives, used by the closed witnesses: every derived key is all-zero
and the MAC is 31 zero bytes followed by the byte sum of the message. -/
def sumPrims : CryptoPrims where
  pbkdf2 := fun len _salt _iters _pw => List.replicate len 0
  blake2b := fun len _person _data => List.replicate len 0
  hmacSha256 := fun _key msg => List.replicate 31 0 ++ [msg.sum % 256]

/-- Closed instance of `encrypt_decrypt_roundtrip` at concrete inputs. -/
theorem encrypt_decrypt_roundtrip_witness :
    (validate_key_strength "Aa1!Aa1!Aa1!" = true
      ∧ ([5, 77] : List Byte).length ≤ 50 * 1024 * 1024
      ∧ (List.replicate 32 (0 : Byte)).length = 32
      ∧ ∀ k msg, (sumPrims.hmacSha256 k msg).length = 32)
    ∧ (encrypt_with_validation .fast sumPrims [] (List.replicate 32 0) "Aa1!Aa1!Aa1!"
        [5, 77]).bind (decrypt_with_validation .fast sumPrims "Aa1!Aa1!Aa1!")
      = Except.ok [5, 77] :=
  ⟨⟨by decide, by decide, by simp, fun k msg => by simp [sumPrims]⟩,
    encrypt_decrypt_roundtrip .fast sumPrims [] (List.replicate 32 0) "Aa1!Aa1!Aa1!"
      [5, 77] (by decide) (by decide) (by simp) (fun k msg => by simp [sumPrims])⟩

/-! ### Authenticity: single-byte tampering -/

theorem decrypt_mac_mismatch (mode : PerformanceMode) (prims : CryptoPrims)
    (secret_key : String) (b : List Byte) (hlen : ¬b.length < 64)
    (hne : recomputedMac mode prims secret_key b ≠ blobMac b) :
    decrypt mode prims secret_key b = Except.error CipherError.integrityFailure := by
  rw [decrypt_eq_check mode prims secret_key b hlen, if_neg hne]

/-- C2.  Authenticity and terminal failure: changing any single byte of a
blob produced by `encrypt` (in the salt, the MAC, or the ciphertext
region) makes `decrypt` fail with the integrity error, and a failing
decrypt returns no plaintext at all.  For a change inside the MAC region
(32 ≤ i < 64) this is unconditional; for a change in the salt or
ciphertext it holds whenever the recomputed HMAC-SHA256 tag of the
tampered blob differs from its stored tag (`hcoll`), the collision
freeness that HMAC provides computationally and that no theorem about an
arbitrary keyed hash can supply for free. -/
theorem decrypt_single_byte_tamper (mode : PerformanceMode) (prims : CryptoPrims)
    (secret_key : String) (salt data : List Byte) (i : Nat) (v : Byte)
    (hsalt : salt.length = 32)
    (hmac32 : ∀ k msg, (prims.hmacSha256 k msg).length = 32)
    (hi : i < (encrypt mode prims salt secret_key data).length)
    (hv : v ≠ (encrypt mode prims salt secret_key data).getD i 0)
    (hcoll : ¬(32 ≤ i ∧ i < 64) →
      recomputedMac mode prims secret_key
          ((encrypt mode prims salt secret_key data).set i v)
        ≠ blobMac ((encrypt mode prims salt secret_key data).set i v)) :
    decrypt mode prims secret_key ((encrypt mode prims salt secret_key data).set i v)
        = Except.error CipherError.integrityFailure
    ∧ ∀ out, decrypt mode prims secret_key
        ((encrypt mode prims salt secret_key data).set i v) ≠ Except.ok out := by
  set st := _initialize_cml mode prims secret_key salt with hst
  set K := _generate_keystream_cml mode st.x st.r st.epsilon data.length with hKdef
  set C := List.zipWith (fun b k => b ^^^ k) data K with hCdef
  set mac := prims.hmacSha256 (hmacKeyOf mode prims secret_key salt) (salt ++ C) with hmacdef
  have hmaclen : mac.length = 32 := hmac32 _ _
  have hB : encrypt mode prims salt secret_key data = salt ++ mac ++ C := rfl
  have hlen : ¬((encrypt mode prims salt secret_key data).set i v).length < 64 := by
    rw [List.length_set, hB]
    simp only [List.length_append, hsalt, hmaclen]; omega
  have hmain : decrypt mode prims secret_key
      ((encrypt mode prims salt secret_key data).set i v)
      = Except.error CipherError.integrityFailure := by
    apply decrypt_mac_mismatch mode prims secret_key _ hlen
    by_cases hmid : 32 ≤ i ∧ i < 64
    · -- the changed byte sits in the stored MAC: the recomputed tag is the
      -- original one, and the stored tag now differs from it at i - 32
      obtain ⟨h32, h64⟩ := hmid
      have hmacset : (encrypt mode prims salt secret_key data).set i v
          = salt ++ (mac.set (i - 32) v ++ C) := by
        rw [hB, List.append_assoc, List.set_append_right _ _ (hsalt ▸ h32),
          List.set_append_left _ _ (by rw [hmaclen]; omega), hsalt]
      have hj : i - 32 < mac.length := by rw [hmaclen]; omega
      have hBsalt : blobSalt (salt ++ (mac.set (i - 32) v ++ C)) = salt := by
        rw [blobSalt]; exact List.take_left' hsalt
      have hBC : blobCipher (salt ++ (mac.set (i - 32) v ++ C)) = C := by
        rw [blobCipher, ← List.append_assoc]
        exact List.drop_left' (by
          rw [List.length_append, List.length_set, hsalt, hmaclen])
      have hBmac : blobMac (salt ++ (mac.set (i - 32) v ++ C)) = mac.set (i - 32) v := by
        rw [blobMac, List.drop_left' hsalt]
        exact List.take_left' (by rw [List.length_set, hmaclen])
      rw [hmacset, recomputedMac, hBsalt, hBC, hBmac, ← hmacdef]
      -- the original byte at position i of the blob is mac[i - 32]
      have hgetD : (encrypt mode prims salt secret_key data).getD i 0
          = mac.getD (i - 32) 0 := by
        rw [hB, List.getD_eq_getElem?_getD, List.getD_eq_getElem?_getD,
          List.append_assoc, List.getElem?_append_right (by rw [hsalt]; exact h32),
          hsalt, List.getElem?_append_left hj]
      intro heq
      have := congrArg (fun l => l[i - 32]?) heq
      simp only [List.getElem?_set_self hj, List.getElem?_eq_getElem hj] at this
      rw [hgetD, List.getD_eq_getElem?_getD, List.getElem?_eq_getElem hj] at hv
      exact hv (by simpa using this.symm)
    · exact hcoll hmid
  exact ⟨hmain, by rw [hmain]; intro out h; exact Except.noConfusion h⟩

/-- Closed instance of `decrypt_single_byte_tamper`: flipping the first
MAC byte of a concrete two-byte encryption from 82 to 1. -/
theorem decrypt_single_byte_tamper_witness :
    ((List.replicate 32 (0 : Byte)).length = 32
      ∧ (∀ k msg, (sumPrims.hmacSha256 k msg).length = 32)
      ∧ 32 < (encrypt .fast sumPrims (List.replicate 32 0) "Aa1!Aa1!Aa1!" [5, 77]).length
      ∧ (1 : Byte) ≠ (encrypt .fast sumPrims (List.replicate 32 0) "Aa1!Aa1!Aa1!"
          [5, 77]).getD 32 0)
    ∧ decrypt .fast sumPrims "Aa1!Aa1!Aa1!"
        ((encrypt .fast sumPrims (List.replicate 32 0) "Aa1!Aa1!Aa1!" [5, 77]).set 32 1)
      = Except.error CipherError.integrityFailure :=
  ⟨⟨by simp, fun k msg => by simp [sumPrims], by decide, by decide⟩,
    (decrypt_single_byte_tamper .fast sumPrims "Aa1!Aa1!Aa1!" (List.replicate 32 0)
      [5, 77] 32 1 (by simp) (fun k msg => by simp [sumPrims]) (by decide) (by decide)
      (fun h => absurd ⟨by omega, by omega⟩ h)).1⟩

/-! ### Validated encryption: which CML state is checked, which is used -/

/-- Concrete salt-sensitive primitives for the counterexample: the PBKDF2
master key starts with the salt bytes, so distinct salts give distinct
derived states. -/
def saltPrims : CryptoPrims where
  pbkdf2 := fun len salt _iters _pw => (salt ++ List.replicate len 0).take len
  blake2b := fun len _person data => (data ++ List.replicate len 0).take len
  hmacSha256 := fun _key msg => List.replicate 31 0 ++ [msg.sum % 256]

theorem encrypt_with_validation_ok (mode : PerformanceMode) (prims : CryptoPrims)
    (saltV saltE : List Byte) (secret_key : String) (data : List Byte)
    (hstrong : validate_key_strength secret_key = true)
    (hsize : data.length ≤ 50 * 1024 * 1024) :
    encrypt_with_validation mode prims saltV saltE secret_key data
      = Except.ok (encrypt mode prims saltE secret_key data) := by
  have hsize2 : ¬data.length > 50 * 1024 * 1024 := by omega
  rw [encrypt_with_validation, hstrong]
  simp only [Bool.not_true, Bool.false_eq_true, if_false, if_neg hsize2]

theorem blobSalt_encrypt (mode : PerformanceMode) (prims : CryptoPrims)
    (salt : List Byte) (secret_key : String) (data : List Byte)
    (hsalt : salt.length = 32) :
    blobSalt (encrypt mode prims salt secret_key data) = salt := by
  rw [encrypt_layout, blobSalt, List.append_assoc]
  exact List.take_left' hsalt

/-- C9 counterexample.  In `encrypt_with_validation` the state inspected
by the chaos sanity check is derived from one fresh salt while `encrypt`
derives a second state from another fresh salt; at these concrete inputs
(two distinct salt draws) the two states have different site vectors `x`,
and the salt stored in the blob is the second one, not the one whose
state was checked. -/
theorem encrypt_with_validation_two_states_counterexample :
    (_initialize_cml .fast saltPrims "Aa1!Aa1!Aa1!" (List.replicate 32 0)).x
        ≠ (_initialize_cml .fast saltPrims "Aa1!Aa1!Aa1!" (1 :: List.replicate 31 0)).x
    ∧ encrypt_with_validation .fast saltPrims (List.replicate 32 0)
        (1 :: List.replicate 31 0) "Aa1!Aa1!Aa1!" [5]
      = Except.ok (encrypt .fast saltPrims (1 :: List.replicate 31 0) "Aa1!Aa1!Aa1!" [5])
    ∧ blobSalt (encrypt .fast saltPrims (1 :: List.replicate 31 0) "Aa1!Aa1!Aa1!" [5])
      = 1 :: List.replicate 31 0 := by
  refine ⟨?_, ?_, ?_⟩
  · have h1 : (_initialize_cml .fast saltPrims "Aa1!Aa1!Aa1!" (List.replicate 32 0)).x
        = [1 / 10 + ((0 : ℕ) : ℚ) / 65535 * (8 / 10)] := rfl
    have h2 : (_initialize_cml .fast saltPrims "Aa1!Aa1!Aa1!" (1 :: List.replicate 31 0)).x
        = [1 / 10 + ((256 : ℕ) : ℚ) / 65535 * (8 / 10)] := rfl
    rw [h1, h2]
    simp only [ne_eq, List.cons.injEq, and_true]
    norm_num
  · exact encrypt_with_validation_ok .fast saltPrims (List.replicate 32 0)
      (1 :: List.replicate 31 0) "Aa1!Aa1!Aa1!" [5] (by decide) (by decide)
  · exact blobSalt_encrypt .fast saltPrims (1 :: List.replicate 31 0) "Aa1!Aa1!Aa1!" [5]
      (by simp)

/-- C9 amended.  Validated encryption derives a first CML state from its
own fresh salt only for the chaos sanity check and discards it; `encrypt`
then derives an independent second state from another fresh salt.  The
ciphertext keystream and the salt stored in the blob both come from that
second state, and the whole result is independent of the salt whose state
was sanity-checked. -/
theorem encrypt_with_validation_uses_second_state (mode : PerformanceMode)
    (prims : CryptoPrims) (saltV saltE : List Byte) (secret_key : String)
    (data : List Byte)
    (hstrong : validate_key_strength secret_key = true)
    (hsize : data.length ≤ 50 * 1024 * 1024)
    (hsalt : saltE.length = 32) :
    encrypt_with_validation mode prims saltV saltE secret_key data
        = Except.ok (encrypt mode prims saltE secret_key data)
    ∧ (∀ saltV₂, encrypt_with_validation mode prims saltV₂ saltE secret_key data
        = encrypt_with_validation mode prims saltV saltE secret_key data)
    ∧ blobSalt (encrypt mode prims saltE secret_key data) = saltE := by
  refine ⟨encrypt_with_validation_ok mode prims saltV saltE secret_key data hstrong hsize,
    ?_, blobSalt_encrypt mode prims saltE secret_key data hsalt⟩
  intro saltV₂
  rw [encrypt_with_validation, encrypt_with_validation, hstrong]

/-- Closed instance of `encrypt_with_validation_uses_second_state`. -/
theorem encrypt_with_validation_uses_second_state_witness :
    (validate_key_strength "Aa1!Aa1!Aa1!" = true
      ∧ ([5] : List Byte).length ≤ 50 * 1024 * 1024
      ∧ (1 :: List.replicate 31 (0 : Byte)).length = 32)
    ∧ (encrypt_with_validation .fast saltPrims (List.replicate 32 0)
          (1 :: List.replicate 31 0) "Aa1!Aa1!Aa1!" [5]
        = Except.ok (encrypt .fast saltPrims (1 :: List.replicate 31 0) "Aa1!Aa1!Aa1!" [5])
      ∧ (∀ saltV₂, encrypt_with_validation .fast saltPrims saltV₂
            (1 :: List.replicate 31 0) "Aa1!Aa1!Aa1!" [5]
          = encrypt_with_validation .fast saltPrims (List.replicate 32 0)
              (1 :: List.replicate 31 0) "Aa1!Aa1!Aa1!" [5])
      ∧ blobSalt (encrypt .fast saltPrims (1 :: List.replicate 31 0) "Aa1!Aa1!Aa1!" [5])
        = 1 :: List.replicate 31 0) :=
  ⟨⟨by decide, by decide, by simp⟩,
    encrypt_with_validation_uses_second_state .fast saltPrims (List.replicate 32 0)
      (1 :: List.replicate 31 0) "Aa1!Aa1!Aa1!" [5] (by decide) (by decide) (by simp)⟩

/-! ### Audio protection facade: the performance_mode argument -/

/-- Facade-level primitives of `chaotic_audio_protection.py` that live in
the Python standard library. -/
structure FacadePrims where
  sha256 : List Byte → List Byte
  b64encode : List Byte → String

/-- `create_audio_protection_key(user_id, track_id, master_secret)`
(chaotic_audio_protection.py lines 496-527). -/
def create_audio_protection_key (prims : CryptoPrims) (fprims : FacadePrims)
    (user_id track_id master_secret : String) : String :=
  let combined := user_id ++ ":" ++ track_id ++ ":" ++ master_secret
  let salt := fprims.sha256 (strBytes ("audio_protection:" ++ track_id))
  fprims.b64encode (prims.pbkdf2 32 salt 50000 combined)

/-- `estimate_encryption_time(file_size, performance_mode)` (lines 28-52),
with the float arithmetic modelled by exact rationals. -/
def estimate_encryption_time (file_size : Nat) (performance_mode : String) : ℚ :=
  let time_per_mb : ℚ :=
    if performance_mode = "fast" then 1 / 2
    else if performance_mode = "balanced" then 6
    else if performance_mode = "secure" then 15
    else 6
  let file_size_mb : ℚ := (file_size : ℚ) / (1024 * 1024)
  let base_time := file_size_mb * time_per_mb
  let overhead := 2 + file_size_mb * (1 / 2)
  base_time + overhead

/-- Result record of `ChaoticAudioProtection.encrypt_audio_file`, reduced
to the fields the claims speak about: the bytes written to the output
path, the success flag, the time estimate, and the normalized mode string
used for the progress messages and the returned record. -/
structure EncryptAudioResult where
  success : Bool
  blob : Option (List Byte)
  estimated_time : ℚ
  performance_mode : String
deriving DecidableEq, Repr

/-- `ChaoticAudioProtection.encrypt_audio_file` (lines 85-204).  The
method writes `performance_mode` into the `CHAOTIC_PERFORMANCE_MODE`
environment variable, but `chaotic_cipher.py` read that variable once at
module import (line 18): the cipher constants are fixed to `importMode`
and the environment write cannot reach them, which the embedding renders
by the cipher calls taking `importMode` and never `performance_mode`. -/
def encrypt_audio_file (importMode : PerformanceMode) (prims : CryptoPrims)
    (fprims : FacadePrims) (saltV saltE : List Byte)
    (master_secret user_id track_id : String) (file_size : Nat)
    (audio_data : List Byte) (performance_mode : String) : EncryptAudioResult :=
  let pm := if performance_mode = "fast" ∨ performance_mode = "balanced"
      ∨ performance_mode = "secure" then performance_mode else "balanced"
  let estimated_time := estimate_encryption_time file_size pm
  let secret_key := create_audio_protection_key prims fprims user_id track_id master_secret
  match encrypt_with_validation importMode prims saltV saltE secret_key audio_data with
  | .ok encrypted_data => ⟨true, some encrypted_data, estimated_time, pm⟩
  | .error _ => ⟨false, none, estimated_time, pm⟩

/-- C10.  The per-call performance_mode argument never reaches the cipher:
two runs of `encrypt_audio_file` on identical inputs that differ only in
`performance_mode` produce the same blob and the same success flag, and
the blob is exactly the output of the cipher under the import-time mode —
whose lattice size, transient steps, PBKDF2 iterations and chunk size are
fixed by `importMode` alone.  Only the time estimate and the mode string
echoed in progress messages can differ. -/
theorem performance_mode_never_reaches_cipher (importMode : PerformanceMode)
    (prims : CryptoPrims) (fprims : FacadePrims) (saltV saltE : List Byte)
    (master_secret user_id track_id : String) (file_size : Nat)
    (audio_data : List Byte) (pm₁ pm₂ : String) :
    (encrypt_audio_file importMode prims fprims saltV saltE master_secret user_id
        track_id file_size audio_data pm₁).blob
      = (encrypt_audio_file importMode prims fprims saltV saltE master_secret user_id
          track_id file_size audio_data pm₂).blob
    ∧ (encrypt_audio_file importMode prims fprims saltV saltE master_secret user_id
        track_id file_size audio_data pm₁).success
      = (encrypt_audio_file importMode prims fprims saltV saltE master_secret user_id
          track_id file_size audio_data pm₂).success
    ∧ (encrypt_audio_file importMode prims fprims saltV saltE master_secret user_id
        track_id file_size audio_data pm₁).blob
      = (encrypt_with_validation importMode prims saltV saltE
          (create_audio_protection_key prims fprims user_id track_id master_secret)
          audio_data).toOption := by
  unfold encrypt_audio_file
  cases h : encrypt_with_validation importMode prims saltV saltE
      (create_audio_protection_key prims fprims user_id track_id master_secret)
      audio_data <;>
    simp [h, Except.toOption]

/-! ### Authorization service: the access matrix -/

/-- HTTP-status error kinds raised by the control-plane modules. -/
inductive HTTPError
  | notFound
  | unauthenticated
  | forbidden
  | conflict
  | tooManyRequests
  | requestTimeout
deriving DecidableEq, Repr

/-- Track metadata obtained from the external store:
`track.get("owner_id")` and `track.get("is_public", False)`. -/
structure Track where
  owner_id : String
  is_public : Bool
deriving DecidableEq, Repr

/-- The authenticated caller (None when anonymous). -/
structure User where
  id : String
deriving DecidableEq, Repr

/-- `AuthorizationService.check_track_access` (authorization.py lines
27-103), with the metadata lookup result passed in (the store is an
external collaborator) and the random access-token minting of the success
path elided: the function returns the granted track. -/
def check_track_access (track : Option Track) (user : Option User)
    (operation : String) : Except HTTPError Track :=
  match track with
  | none => .error .notFound
  | some track =>
    let is_owner : Bool := match user with
      | none => false
      | some u => u.id = track.owner_id
    let access_granted : Bool :=
      if operation = "read" || operation = "stream" then
        track.is_public || is_owner
      else if operation = "write" then is_owner
      else if operation = "delete" then is_owner
      else false
    if !access_granted then
      match user with
      | none => .error .unauthenticated
      | some _ => .error .forbidden
    else .ok track

/-- C3.  Access matrix with error kinds: a missing metadata lookup fails
with NotFound; otherwise access is granted exactly when the operation is
read/stream on a public track or the caller owns the track (owner-only
for write/delete), every operation outside the four known ones is denied,
and every denial is Unauthenticated for an anonymous caller and Forbidden
for an authenticated one. -/
theorem check_track_access_matrix (track : Option Track) (user : Option User)
    (operation : String) :
    (track = none → check_track_access track user operation = .error .notFound)
    ∧ (∀ t, track = some t →
        ((check_track_access track user operation = .ok t) ↔
          (((operation = "read" ∨ operation = "stream")
              ∧ (t.is_public = true ∨ ∃ u, user = some u ∧ u.id = t.owner_id))
            ∨ ((operation = "write" ∨ operation = "delete")
              ∧ ∃ u, user = some u ∧ u.id = t.owner_id)))
        ∧ (check_track_access track user operation ≠ .ok t →
            (user = none →
              check_track_access track user operation = .error .unauthenticated)
            ∧ (∀ u, user = some u →
              check_track_access track user operation = .error .forbidden))) := by
  constructor
  · intro h; rw [h]; rfl
  · intro t ht
    subst ht
    by_cases hr : operation = "read" <;>
      by_cases hs : operation = "stream" <;>
        by_cases hw : operation = "write" <;>
          by_cases hd : operation = "delete" <;>
            cases user with
            | none =>
                constructor <;>
                  simp [check_track_access, hr, hs, hw, hd] <;>
                  cases t.is_public <;> simp_all
            | some u =>
                constructor <;>
                  simp [check_track_access, hr, hs, hw, hd] <;>
                  cases t.is_public <;>
                    by_cases ho : u.id = t.owner_id <;> simp_all

/-- Closed instance of `check_track_access_matrix`: anonymous read of a
private track is rejected as Unauthenticated. -/
theorem check_track_access_matrix_witness :
    check_track_access (some ⟨"owner1", false⟩) none "read"
      = Except.error HTTPError.unauthenticated := by
  have h := (check_track_access_matrix (some ⟨"owner1", false⟩) none "read").2
    ⟨"owner1", false⟩ rfl
  have hne : check_track_access (some ⟨"owner1", false⟩) none "read"
      ≠ Except.ok ⟨"owner1", false⟩ := by
    intro hok
    have := h.1.mp hok
    simp at this
  exact (h.2 hne).1 rfl

/-! ### Signed URL tokens -/

/-- Claims of the short-lived HLS JWT (token_utils.py). -/
structure TokenPayload where
  track_id : String
  exp : ℤ
  ip : Option String
  rng : Option String
deriving DecidableEq, Repr

/-- A JWT as produced by `jose.jwt.encode`: the claims plus an HS256
signature over them, the signing function being an abstract parameter. -/
structure SignedToken where
  payload : TokenPayload
  sig : Nat
deriving DecidableEq, Repr

/-- Python truthiness of an optional string (`if ip:`). -/
def truthy : Option String → Bool
  | none => false
  | some s => s ≠ ""

/-- `create_track_token(track_id, ip, range_header, expires_minutes)`
(token_utils.py lines 17-40): optional claims are added only when
truthy. -/
def create_track_token (sign : String → TokenPayload → Nat) (secret : String)
    (now : ℤ) (track_id : String) (ip range_header : Option String)
    (expires_minutes : ℤ) : SignedToken :=
  let payload : TokenPayload :=
    { track_id := track_id
      exp := now + expires_minutes * 60
      ip := if truthy ip then ip else none
      rng := if truthy range_header then range_header else none }
  ⟨payload, sign secret payload⟩

/-- `verify_track_token(token, track_id, ip, range_header)` (lines
43-63).  `jose.jwt.decode` rejects a wrong signature or an `exp` in the
past with a JWTError, mapped to 401; the later mismatches are 403. -/
def verify_track_token (sign : String → TokenPayload → Nat) (secret : String)
    (now : ℤ) (token : SignedToken) (track_id : String)
    (ip range_header : Option String) : Except HTTPError Unit :=
  if token.sig ≠ sign secret token.payload ∨ token.payload.exp < now then
    .error .unauthenticated
  else if token.payload.track_id ≠ track_id then .error .forbidden
  else if truthy ip && truthy token.payload.ip && token.payload.ip ≠ ip then
    .error .forbidden
  else if truthy token.payload.rng
      && (range_header.getD "" ≠ token.payload.rng.getD "") then
    .error .forbidden
  else .ok ()

theorem ip_check_false_iff (A : String) (ipSup : Option String) :
    (truthy ipSup && decide ((some A : Option String) ≠ ipSup)) = false
      ↔ (ipSup = none ∨ ipSup = some "" ∨ ipSup = some A) := by
  cases ipSup with
  | none => simp [truthy]
  | some s =>
      simp only [truthy, Bool.and_eq_false_iff, decide_eq_false_iff_not, ne_eq,
        not_not, Option.some.injEq]
      constructor
      · rintro (h | h)
        · exact Or.inr (Or.inl h)
        · exact Or.inr (Or.inr h.symm)
      · rintro (h | h | h)
        · exact Option.noConfusion h
        · exact Or.inl h
        · exact Or.inr h.symm

theorem verify_track_token_minted_eq (sign : String → TokenPayload → Nat)
    (secret : String) (mintNow verNow : ℤ) (tid tid₂ A R : String)
    (expires_minutes : ℤ) (ipSup rngSup : Option String)
    (hA : A ≠ "") (hR : R ≠ "") :
    verify_track_token sign secret verNow
        (create_track_token sign secret mintNow tid (some A) (some R) expires_minutes)
        tid₂ ipSup rngSup
      = if mintNow + expires_minutes * 60 < verNow then
          Except.error HTTPError.unauthenticated
        else if tid ≠ tid₂ then Except.error HTTPError.forbidden
        else if truthy ipSup && decide ((some A : Option String) ≠ ipSup) then
          Except.error HTTPError.forbidden
        else if rngSup.getD "" ≠ R then Except.error HTTPError.forbidden
        else Except.ok () := by
  have hTA : truthy (some A) = true := by simp [truthy, hA]
  have hTR : truthy (some R) = true := by simp [truthy, hR]
  rw [create_track_token, verify_track_token]
  simp only [hTA, hTR, if_true, ne_eq, not_true_eq_false, false_or, if_pos,
    Option.getD_some, Bool.true_and, Bool.and_true]
  split_ifs <;> simp_all

/-- C4 counterexample.  A token minted with bound ip A = "1.2.3.4" and
rng R = "bytes=0-1" is accepted by a verification that supplies no caller
IP at all: the source skips the IP check whenever the verifier passes a
falsy ip.  So acceptance does not require supplying an IP exactly equal
to A, refuting the claim as stated. -/
theorem verify_track_token_no_ip_counterexample :
    verify_track_token (fun _ _ => 0) "secret-key" 0
        (create_track_token (fun _ _ => 0) "secret-key" 0 "trk1"
          (some "1.2.3.4") (some "bytes=0-1") 2)
        "trk1" none (some "bytes=0-1")
      = Except.ok ()
    ∧ (none : Option String) ≠ some "1.2.3.4" := by
  constructor
  · rfl
  · intro h; exact Option.noConfusion h

/-- C4 amended.  For a token minted with truthy bindings ip = A and
rng = R: verification succeeds iff the token is not past `exp`, the
expected track id matches, the supplied Range header (a missing one
counting as the empty string) equals R byte-for-byte, and the supplied
caller IP is either absent/empty or exactly A — the IP binding is
enforced only against a truthy supplied IP.  A stale token or a wrong
signature is rejected with Unauthenticated; a track, IP, or Range
mismatch is rejected with Forbidden. -/
theorem verify_track_token_binding (sign : String → TokenPayload → Nat)
    (secret : String) (mintNow verNow : ℤ) (tid tid₂ A R : String)
    (expires_minutes : ℤ) (ipSup rngSup : Option String)
    (hA : A ≠ "") (hR : R ≠ "") :
    (verify_track_token sign secret verNow
        (create_track_token sign secret mintNow tid (some A) (some R) expires_minutes)
        tid₂ ipSup rngSup
      = Except.ok ()
      ↔ (¬mintNow + expires_minutes * 60 < verNow ∧ tid₂ = tid
          ∧ (ipSup = none ∨ ipSup = some "" ∨ ipSup = some A)
          ∧ rngSup.getD "" = R))
    ∧ (mintNow + expires_minutes * 60 < verNow →
        verify_track_token sign secret verNow
          (create_track_token sign secret mintNow tid (some A) (some R) expires_minutes)
          tid₂ ipSup rngSup = Except.error HTTPError.unauthenticated)
    ∧ (verify_track_token sign secret verNow
          (create_track_token sign secret mintNow tid (some A) (some R) expires_minutes)
          tid₂ ipSup rngSup ≠ Except.ok () →
        ¬mintNow + expires_minutes * 60 < verNow →
        verify_track_token sign secret verNow
          (create_track_token sign secret mintNow tid (some A) (some R) expires_minutes)
          tid₂ ipSup rngSup = Except.error HTTPError.forbidden)
    ∧ (∀ tok : SignedToken, tok.sig ≠ sign secret tok.payload →
        verify_track_token sign secret verNow tok tid₂ ipSup rngSup
          = Except.error HTTPError.unauthenticated) := by
  have key := verify_track_token_minted_eq sign secret mintNow verNow tid tid₂ A R
    expires_minutes ipSup rngSup hA hR
  refine ⟨?_, ?_, ?_, ?_⟩
  · rw [key]
    by_cases hexp : mintNow + expires_minutes * 60 < verNow
    · simp only [if_pos hexp]
      constructor
      · intro h; exact absurd h (by simp)
      · intro h; exact absurd hexp h.1
    · rw [if_neg hexp]
      by_cases htid : tid ≠ tid₂
      · simp only [if_pos htid]
        constructor
        · intro h; exact absurd h (by simp)
        · intro h; exact absurd h.2.1.symm htid
      · rw [if_neg htid]
        by_cases hip : (truthy ipSup && decide ((some A : Option String) ≠ ipSup)) = true
        · simp only [if_pos hip]
          constructor
          · intro h; exact absurd h (by simp)
          · intro h
            have := (ip_check_false_iff A ipSup).mpr h.2.2.1
            rw [this] at hip
            exact Bool.noConfusion hip
        · rw [if_neg hip]
          by_cases hrng : rngSup.getD "" ≠ R
          · simp only [if_pos hrng]
            constructor
            · intro h; exact absurd h (by simp)
            · intro h; exact absurd h.2.2.2 hrng
          · rw [if_neg hrng]
            simp only [true_iff, iff_true]
            refine ⟨hexp, by tauto, ?_, by tauto⟩
            exact (ip_check_false_iff A ipSup).mp (Bool.eq_false_iff.mpr hip)
  · intro hexp
    rw [key, if_pos hexp]
  · intro hne hexp
    rw [key] at hne ⊢
    rw [if_neg hexp] at hne ⊢
    split_ifs at hne ⊢ with h1 h2 h3
    · rfl
    · rfl
    · rfl
    · exact absurd rfl hne
  · intro tok hsig
    rw [verify_track_token, if_pos (Or.inl hsig)]

/-- Closed instance of `verify_track_token_binding`. -/
theorem verify_track_token_binding_witness :
    (("1.2.3.4" : String) ≠ "" ∧ ("bytes=0-1" : String) ≠ "")
    ∧ (verify_track_token (fun _ _ => 0) "secret-key" 30
        (create_track_token (fun _ _ => 0) "secret-key" 0 "trk1"
          (some "1.2.3.4") (some "bytes=0-1") 2)
        "trk1" (some "9.9.9.9") (some "bytes=0-1")
      = Except.ok ()
      ↔ (¬(0 : ℤ) + 2 * 60 < 30 ∧ ("trk1" : String) = "trk1"
          ∧ ((some "9.9.9.9" : Option String) = none ∨ some "9.9.9.9" = some ""
              ∨ some "9.9.9.9" = some "1.2.3.4")
          ∧ (some "bytes=0-1" : Option String).getD "" = "bytes=0-1")) :=
  ⟨⟨by decide, by decide⟩,
    (verify_track_token_binding (fun _ _ => 0) "secret-key" 0 30 "trk1" "trk1"
      "1.2.3.4" "bytes=0-1" 2 (some "9.9.9.9") (some "bytes=0-1")
      (by decide) (by decide)).1⟩

/-! ### File-lock manager -/

/-- Association-list lookup, the embedding of a Python dict access. -/
def alookup {α : Type} (k : String) (l : List (String × α)) : Option α :=
  (l.find? (fun p => p.1 = k)).map (fun p => p.2)

/-- Association-list upsert, the embedding of `d[k] = v`. -/
def aset {α : Type} (k : String) (v : α) : List (String × α) → List (String × α)
  | [] => [(k, v)]
  | (k0, v0) :: rest => if k0 = k then (k, v) :: rest else (k0, v0) :: aset k v rest

/-- Association-list removal, the embedding of `del d[k]`. -/
def aremove {α : Type} (k : String) (l : List (String × α)) : List (String × α) :=
  l.filter (fun p => p.1 ≠ k)

/-- An entry of `_processing_locks` (file_lock_manager.py lines 95-102). -/
structure LockRecord where
  track_id : String
  user_id : String
  operation : String
  created_at : ℤ
  expires_at : ℤ
  process_id : String
deriving DecidableEq, Repr

/-- The module-level mutable maps of `file_lock_manager.py`:
`_processing_locks` keyed by `track_id:operation`, `_user_processing`
mapping a user to the set (here a duplicate-free list) of track ids they
are processing, and the manager's `last_cleanup` clock. -/
structure LockState where
  processing_locks : List (String × LockRecord)
  user_processing : List (String × List String)
  last_cleanup : ℤ
deriving DecidableEq, Repr

/-- `_get_user_processing_count` (lines 157-159). -/
def _get_user_processing_count (st : LockState) (user_id : String) : Nat :=
  ((alookup user_id st.user_processing).getD []).length

/-- `_is_lock_expired` (lines 135-137). -/
def _is_lock_expired (now : ℤ) (ld : LockRecord) : Bool := now > ld.expires_at

/-- `_release_processing_lock` (lines 139-155). -/
def _release_processing_lock (st : LockState) (lock_key : String) : LockState :=
  match alookup lock_key st.processing_locks with
  | none => st
  | some ld =>
      let locks := aremove lock_key st.processing_locks
      let up := match alookup ld.user_id st.user_processing with
        | none => st.user_processing
        | some s =>
            let s2 := s.erase ld.track_id
            if s2.isEmpty then aremove ld.user_id st.user_processing
            else aset ld.user_id s2 st.user_processing
      ⟨locks, up, st.last_cleanup⟩

/-- `_cleanup_expired_locks` (lines 161-178): a lazy sweep that runs only
when at least `cleanup_interval` (300 s) has passed. -/
def _cleanup_expired_locks (now : ℤ) (st : LockState) : LockState :=
  if now - st.last_cleanup < 300 then st
  else
    let expired := (st.processing_locks.filter (fun p => _is_lock_expired now p.2)).map
      (fun p => p.1)
    let st2 := expired.foldl (fun acc k => _release_processing_lock acc k) st
    ⟨st2.processing_locks, st2.user_processing, now⟩

/-- The successful tail of `acquire_processing_lock` (lines 84-114):
record the lock under its key and register the track in the user's
processing set.  The per-track asyncio mutex acquisition is a suspension
point of the cooperative scheduler and acquires immediately in this
single-operation model. -/
def _record_new_lock (now : ℤ) (pid : String) (st : LockState)
    (track_id user_id operation : String) : LockState × LockRecord :=
  let lock_key := track_id ++ ":" ++ operation
  let lock_data : LockRecord :=
    ⟨track_id, user_id, operation, now, now + 30 * 60, pid⟩
  let s := (alookup user_id st.user_processing).getD []
  let s2 := if track_id ∈ s then s else s ++ [track_id]
  (⟨aset lock_key lock_data st.processing_locks,
    aset user_id s2 st.user_processing, st.last_cleanup⟩, lock_data)

/-- `acquire_processing_lock(track_id, user_id, operation)` (lines
31-128), up to the creation of the lock record.  The `process_id`
(a SHA-256 prefix in the source) is the explicit argument `pid`. -/
def acquire_processing_lock (now : ℤ) (pid : String) (st : LockState)
    (track_id user_id operation : String) :
    Except HTTPError (LockState × LockRecord) :=
  let lock_key := track_id ++ ":" ++ operation
  let st := _cleanup_expired_locks now st
  if 3 ≤ _get_user_processing_count st user_id then .error .tooManyRequests
  else
    match alookup lock_key st.processing_locks with
    | some existing_lock =>
        if existing_lock.user_id = user_id then .error .conflict
        else if _is_lock_expired now existing_lock then
          .ok (_record_new_lock now pid (_release_processing_lock st lock_key)
            track_id user_id operation)
        else .error .conflict
    | none => .ok (_record_new_lock now pid st track_id user_id operation)

theorem alookup_aset_self {α : Type} (k : String) (v : α) (l : List (String × α)) :
    alookup k (aset k v l) = some v := by
  induction l with
  | nil => simp [alookup, aset]
  | cons p rest ih =>
      obtain ⟨k0, v0⟩ := p
      by_cases h : k0 = k
      · subst h; simp [aset, alookup]
      · simp only [aset, if_neg h]
        rw [alookup, List.find?]
        simp only [h, decide_False, decide_eq_true_eq]
        rw [alookup] at ih
        exact ih

theorem cleanup_skip (now : ℤ) (st : LockState) (h : now - st.last_cleanup < 300) :
    _cleanup_expired_locks now st = st := by
  rw [_cleanup_expired_locks, if_pos h]

/-- C5.  Processing-lock acquisition outcomes, for an attempt at a moment
when the lazy 5-minute sweep is not due (so the inspected maps are the
given ones): a user already at the cap of 3 concurrent operations fails
with TooManyRequests; below the cap, an existing record for the same
(track_id, operation) key gives Conflict when held by the requester
itself, Conflict when held by another user and not expired, and is
silently reclaimed — the acquisition succeeding with a fresh record owned
by the requester — when held by another user and expired. -/
theorem acquire_processing_lock_outcomes (now : ℤ) (pid : String) (st : LockState)
    (track_id user_id operation : String)
    (hclean : now - st.last_cleanup < 300) :
    (3 ≤ _get_user_processing_count st user_id →
      acquire_processing_lock now pid st track_id user_id operation
        = .error .tooManyRequests)
    ∧ (_get_user_processing_count st user_id < 3 →
      ∀ rec, alookup (track_id ++ ":" ++ operation) st.processing_locks = some rec →
        (rec.user_id = user_id →
          acquire_processing_lock now pid st track_id user_id operation
            = .error .conflict)
        ∧ (rec.user_id ≠ user_id → ¬now > rec.expires_at →
          acquire_processing_lock now pid st track_id user_id operation
            = .error .conflict)
        ∧ (rec.user_id ≠ user_id → now > rec.expires_at →
          acquire_processing_lock now pid st track_id user_id operation
            = .ok (_record_new_lock now pid
                (_release_processing_lock st (track_id ++ ":" ++ operation))
                track_id user_id operation)
          ∧ alookup (track_id ++ ":" ++ operation)
              (_record_new_lock now pid
                (_release_processing_lock st (track_id ++ ":" ++ operation))
                track_id user_id operation).1.processing_locks
            = some ⟨track_id, user_id, operation, now, now + 30 * 60, pid⟩))
    ∧ (_get_user_processing_count st user_id < 3 →
      alookup (track_id ++ ":" ++ operation) st.processing_locks = none →
        acquire_processing_lock now pid st track_id user_id operation
          = .ok (_record_new_lock now pid st track_id user_id operation)) := by
  have hskip := cleanup_skip now st hclean
  refine ⟨?_, ?_, ?_⟩
  · intro hcap
    rw [acquire_processing_lock, hskip, if_pos hcap]
  · intro hcap rec hrec
    have hcap2 : ¬3 ≤ _get_user_processing_count st user_id := by omega
    refine ⟨?_, ?_, ?_⟩
    · intro hsame
      rw [acquire_processing_lock, hskip, if_neg hcap2, hrec]
      simp only [if_pos hsame]
    · intro hdiff hexp
      rw [acquire_processing_lock, hskip, if_neg hcap2, hrec]
      simp only [if_neg hdiff, _is_lock_expired]
      rw [if_neg (by simpa using hexp)]
    · intro hdiff hexp
      constructor
      · rw [acquire_processing_lock, hskip, if_neg hcap2, hrec]
        simp only [if_neg hdiff, _is_lock_expired]
        rw [if_pos (by simpa using hexp)]
      · exact alookup_aset_self ..
  · intro hcap hnone
    have hcap2 : ¬3 ≤ _get_user_processing_count st user_id := by omega
    rw [acquire_processing_lock, hskip, if_neg hcap2, hnone]

/-- A one-lock state used by the lock-manager witness. -/
def demoLockState : LockState :=
  ⟨[("t1:processing", ⟨"t1", "alice", "processing", 0, 1800, "pid1"⟩)],
    [("alice", ["t1"])], 0⟩

/-- Closed instance of `acquire_processing_lock_outcomes`: a repeat
attempt by the holder of a live lock is a Conflict. -/
theorem acquire_processing_lock_outcomes_witness :
    ((100 : ℤ) - demoLockState.last_cleanup < 300
      ∧ _get_user_processing_count demoLockState "alice" < 3
      ∧ alookup ("t1" ++ ":" ++ "processing") demoLockState.processing_locks
        = some ⟨"t1", "alice", "processing", 0, 1800, "pid1"⟩)
    ∧ acquire_processing_lock 100 "pid2" demoLockState "t1" "alice" "processing"
      = .error .conflict :=
  ⟨⟨by decide, by decide, by decide⟩,
    ((acquire_processing_lock_outcomes 100 "pid2" demoLockState "t1" "alice"
        "processing" (by decide)).2.1
      (by decide) ⟨"t1", "alice", "processing", 0, 1800, "pid1"⟩ (by decide)).1 rfl⟩

/-! ### HLS cleanup sweep -/

/-- A directory tree under the HLS root: name, regular files with their
mtimes, subdirectories. -/
inductive FSTree where
  | dir (name : String) (files : List (String × ℤ)) (subs : List FSTree)

/-- Python `name.endswith(suffix)` over the character sequences. -/
def strEndsWith (s suff : String) : Bool :=
  List.isSuffixOf suff.data s.data

/-- The per-file decision of `_cleanup_once` (hls_cleanup.py lines
49-61): a file survives the pass unless its name ends in `.ts` and its
age exceeds `age_seconds`. -/
def keepFile (now age : ℤ) (f : String × ℤ) : Bool :=
  !(strEndsWith f.1 ".ts" && decide (now - f.2 > age))

mutual

/-- One pass of `_cleanup_once` over a non-root directory, bottom-up as
`os.walk(topdown=False)` visits it: subdirectories are processed first,
then the old `.ts` files are deleted, and the directory itself is removed
(`none`) exactly when `os.listdir` then finds it empty (lines 63-69). -/
def cleanupTree (now age : ℤ) : FSTree → Option FSTree
  | .dir name files subs =>
      let subs2 := cleanupSubs now age subs
      let files2 := files.filter (keepFile now age)
      if files2.isEmpty && subs2.isEmpty then none
      else some (.dir name files2 subs2)

/-- The surviving subdirectories, in order. -/
def cleanupSubs (now age : ℤ) : List FSTree → List FSTree
  | [] => []
  | t :: ts =>
      match cleanupTree now age t with
      | none => cleanupSubs now age ts
      | some t2 => t2 :: cleanupSubs now age ts

end

/-- `_cleanup_once(age_seconds)` at the HLS root: the root directory has
its old segments deleted like any other but is never removed
(line 64: `if root == HLS_DIRECTORY: continue`). -/
def _cleanup_once (now age : ℤ) : FSTree → FSTree
  | .dir name files subs =>
      .dir name (files.filter (keepFile now age)) (cleanupSubs now age subs)

/-- A file `f` lives at the directory-name path `p` inside the tree. -/
inductive HasFile : FSTree → List String → String × ℤ → Prop
  | base (n : String) (files : List (String × ℤ)) (subs : List FSTree)
      (f : String × ℤ) : f ∈ files → HasFile (.dir n files subs) [n] f
  | step (n : String) (files : List (String × ℤ)) (subs : List FSTree)
      (t : FSTree) (p : List String) (f : String × ℤ) :
      t ∈ subs → HasFile t p f → HasFile (.dir n files subs) (n :: p) f

theorem mem_cleanupSubs (now age : ℤ) (subs : List FSTree) (t : FSTree)
    (t2 : FSTree) (ht : t ∈ subs) (h : cleanupTree now age t = some t2) :
    t2 ∈ cleanupSubs now age subs := by
  induction subs with
  | nil => cases ht
  | cons s rest ih =>
      rw [cleanupSubs]
      rcases List.mem_cons.mp ht with h1 | h1
      · subst h1
        rw [h]
        exact List.mem_cons_self ..
      · cases hs : cleanupTree now age s
        · exact ih h1
        · exact List.mem_cons_of_mem _ (ih h1)

theorem hasFile_cleanupTree (now age : ℤ) :
    ∀ (t : FSTree) (p : List String) (f : String × ℤ),
      HasFile t p f → keepFile now age f = true →
      ∃ t2, cleanupTree now age t = some t2 ∧ HasFile t2 p f := by
  intro t p f h
  induction h with
  | base n files subs f hf =>
      intro hkeep
      have hf2 : f ∈ files.filter (keepFile now age) :=
        List.mem_filter.mpr ⟨hf, hkeep⟩
      have hne : (files.filter (keepFile now age)).isEmpty = false := by
        cases hmem : files.filter (keepFile now age) with
        | nil => rw [hmem] at hf2; cases hf2
        | cons a l => simp [List.isEmpty]
      refine ⟨.dir n (files.filter (keepFile now age)) (cleanupSubs now age subs), ?_, ?_⟩
      · rw [cleanupTree]
        simp only [hne, Bool.false_and, Bool.false_eq_true, if_false]
      · exact HasFile.base _ _ _ _ hf2
  | step n files subs t p f ht hsub ih =>
      intro hkeep
      obtain ⟨t2, ht2, hhas2⟩ := ih hkeep
      have hmem : t2 ∈ cleanupSubs now age subs := mem_cleanupSubs now age subs t t2 ht ht2
      have hne : (cleanupSubs now age subs).isEmpty = false := by
        cases hs : cleanupSubs now age subs with
        | nil => rw [hs] at hmem; cases hmem
        | cons a l => simp [List.isEmpty]
      refine ⟨.dir n (files.filter (keepFile now age)) (cleanupSubs now age subs), ?_, ?_⟩
      · rw [cleanupTree]
        simp only [hne, Bool.and_false, Bool.false_eq_true, if_false]
      · exact HasFile.step _ _ _ _ _ _ hmem hhas2

/-- The root directory name, preserved by every pass. -/
def rootName : FSTree → String
  | .dir n _ _ => n

/-- C7.  HLS sweep safety: a single pass never deletes a file that is not
a `.ts` segment (so `.m3u8`, `.key` and other metadata survive regardless
of age) and never deletes a `.ts` file younger than `age_seconds`
(every such kept file survives at its original path); the root directory
itself always survives; and a directory is removed only when, after the
pass handled it, it holds no surviving file and no surviving
subdirectory — i.e. only when it is empty, and never the root. -/
theorem hls_sweep_safety (now age : ℤ) (t : FSTree) (p : List String)
    (f : String × ℤ) :
    (¬strEndsWith f.1 ".ts" = true → keepFile now age f = true)
    ∧ (strEndsWith f.1 ".ts" = true → now - f.2 ≤ age → keepFile now age f = true)
    ∧ (HasFile t p f → keepFile now age f = true →
        HasFile (_cleanup_once now age t) p f)
    ∧ rootName (_cleanup_once now age t) = rootName t
    ∧ (∀ name files subs, cleanupTree now age (.dir name files subs) = none →
        files.filter (keepFile now age) = [] ∧ cleanupSubs now age subs = []) := by
  refine ⟨?_, ?_, ?_, ?_, ?_⟩
  · intro hts
    rw [keepFile]
    cases hh : strEndsWith f.1 ".ts"
    · rfl
    · exact absurd hh hts
  · intro hts hage
    rw [keepFile, hts]
    simp only [Bool.true_and, Bool.not_eq_eq_eq_not, Bool.not_true, decide_eq_false_iff_not]
    omega
  · intro hhas hkeep
    obtain ⟨name, files, subs⟩ := t
    cases hhas with
    | base _ _ _ _ hf =>
        exact HasFile.base _ _ _ _ (List.mem_filter.mpr ⟨hf, hkeep⟩)
    | step _ _ _ t0 p0 _ ht hsub =>
        obtain ⟨t2, ht2, hhas2⟩ := hasFile_cleanupTree now age t0 p0 f hsub hkeep
        exact HasFile.step _ _ _ _ _ _ (mem_cleanupSubs now age subs t0 t2 ht ht2) hhas2
  · obtain ⟨name, files, subs⟩ := t
    rfl
  · intro name files subs hnone
    rw [cleanupTree] at hnone
    by_cases h1 : (files.filter (keepFile now age)).isEmpty = true
    · by_cases h2 : (cleanupSubs now age subs).isEmpty = true
      · exact ⟨List.isEmpty_iff.mp h1, List.isEmpty_iff.mp h2⟩
      · rw [if_neg (by simp [h1, h2])] at hnone
        cases hnone
    · rw [if_neg (by simp [h1])] at hnone
      cases hnone

/-- The files of the spec scenario directory hls/a: one stale segment,
one fresh segment, and a playlist. -/
def demoHLSFiles : List (String × ℤ) :=
  [("seg_000.ts", 300), ("seg_001.ts", 900), ("stream.m3u8", 100)]

/-- The scenario subdirectory hls/a. -/
def demoHLSSub : FSTree := .dir "a" demoHLSFiles []

/-- The scenario tree rooted at hls. -/
def demoHLSTree : FSTree := .dir "hls" [] [demoHLSSub]

/-- Closed instance of `hls_sweep_safety` at `now = 1000`,
`age_seconds = 600`: the playlist of the scenario tree survives the sweep
at its original path. -/
theorem hls_sweep_safety_witness :
    HasFile (_cleanup_once 1000 600 demoHLSTree) ["hls", "a"] ("stream.m3u8", 100) :=
  (hls_sweep_safety 1000 600 demoHLSTree ["hls", "a"] ("stream.m3u8", 100)).2.2.1
    (HasFile.step "hls" [] [demoHLSSub] demoHLSSub ["a"] ("stream.m3u8", 100)
      (List.mem_singleton.mpr rfl)
      (HasFile.base "a" demoHLSFiles [] ("stream.m3u8", 100) (by simp [demoHLSFiles])))
    (by decide)

/-! ### Session manager -/

/-- An entry of `_active_sessions` (session_manager.py lines 59-70). -/
structure Session where
  user_id : String
  session_id : String
  client_ip : String
  user_agent_hash : String
  device_fingerprint : Option String
  created_at : ℤ
  last_accessed : ℤ
  expires_at : ℤ
  access_count : Nat
  is_active : Bool
  revoked_at : Option ℤ
  revoke_reason : Option String
deriving DecidableEq, Repr

/-- The module-level mutable maps of `session_manager.py`
(`_active_sessions`, `_revoked_sessions`, `_user_sessions`) plus the
manager's `last_cleanup` clock.  `used_ids` is bookkeeping for the
freshness of the SHA-256 session ids (`secrets.token_hex(32)` inside the
hash input): it records every id `create_session` has handed out, is
never read by the operations, and lets the step relation state that a
fresh id collides with no earlier one — the "uniqueness assumed with
overwhelming probability" of the data model. -/
structure SessionState where
  active_sessions : List (String × Session)
  revoked_sessions : List String
  user_sessions : List (String × List String)
  last_cleanup : ℤ
  used_ids : List String
deriving DecidableEq, Repr

/-- The liveness filter of `_get_user_sessions` (lines 188-194): present,
unrevoked, `is_active`, and unexpired at `now`. -/
def sessionLive (now : ℤ) (st : SessionState) (sid : String) : Bool :=
  match alookup sid st.active_sessions with
  | none => false
  | some sd =>
      decide (sid ∉ st.revoked_sessions) && sd.is_active && decide (now ≤ sd.expires_at)

/-- `_get_user_sessions(user_id)` (lines 182-197): filter the user's id
set and write the filtered set back. -/
def _get_user_sessions (now : ℤ) (st : SessionState) (user_id : String) :
    SessionState × List String :=
  match alookup user_id st.user_sessions with
  | none => (st, [])
  | some ids =>
      let active := ids.filter (sessionLive now st)
      ({ st with user_sessions := aset user_id active st.user_sessions }, active)

/-- `revoke_session(session_id, reason)` (lines 152-168). -/
def revoke_session (now : ℤ) (st : SessionState) (sid : String) (reason : String) :
    SessionState :=
  match alookup sid st.active_sessions with
  | none => st
  | some sd =>
      { st with
        active_sessions := aset sid
          { sd with
            is_active := false
            revoked_at := some now
            revoke_reason := some reason } st.active_sessions,
        revoked_sessions :=
          if sid ∈ st.revoked_sessions then st.revoked_sessions
          else st.revoked_sessions ++ [sid],
        user_sessions :=
          match alookup sd.user_id st.user_sessions with
          | none => st.user_sessions
          | some ids => aset sd.user_id (ids.erase sid) st.user_sessions }

/-- `_cleanup_expired_sessions` (lines 199-229): a lazy sweep run at most
every 5 minutes that revokes expired active sessions and fully purges
sessions revoked more than 24 hours ago. -/
def _cleanup_expired_sessions (now : ℤ) (st : SessionState) : SessionState :=
  if now - st.last_cleanup < 300 then st
  else
    let expired := (st.active_sessions.filter
      (fun p => decide (p.2.expires_at < now))).map (fun p => p.1)
    let st2 := expired.foldl (fun acc sid => revoke_session now acc sid "expired") st
    let old_revoked := st2.revoked_sessions.filter (fun sid =>
      match alookup sid st2.active_sessions with
      | some sd =>
          match sd.revoked_at with
          | some ra => decide (now - ra > 24 * 3600)
          | none => false
      | none => false)
    let st3 := old_revoked.foldl (fun acc sid =>
      { acc with
        revoked_sessions := acc.revoked_sessions.erase sid
        active_sessions := aremove sid acc.active_sessions }) st2
    { st3 with last_cleanup := now }

/-- The `created_at` of a session id, as the `min` key function of
`create_session` reads it. -/
def createdOf (st : SessionState) (sid : String) : ℤ :=
  match alookup sid st.active_sessions with
  | some sd => sd.created_at
  | none => 0

/-- `min(current_sessions, key=...)`: the first id with minimal
`created_at` in iteration order. -/
def oldestSession (st : SessionState) : List String → Option String
  | [] => none
  | sid :: rest => some (rest.foldl
      (fun best s => if createdOf st s < createdOf st best then s else best) sid)

/-- The session-limit branch of `create_session` (lines 46-51): when the
user already holds `max_sessions_per_user` (5) live sessions, revoke the
one with the oldest `created_at` first. -/
def _evict_if_full (now : ℤ) (st : SessionState) (current : List String) :
    SessionState :=
  if 5 ≤ current.length then
    match oldestSession st current with
    | some oldest => revoke_session now st oldest "session_limit_exceeded"
    | none => st
  else st

/-- The storing tail of `create_session` (lines 53-79): record the new
session under the fresh id and add the id to the user's set (and to the
freshness bookkeeping). -/
def _insert_new_session (now ttl : ℤ) (uaHash : String → String)
    (st : SessionState) (new_sid user_id client_ip user_agent : String)
    (fp : Option String) : SessionState :=
  let sd : Session :=
    { user_id := user_id, session_id := new_sid, client_ip := client_ip,
      user_agent_hash := uaHash user_agent, device_fingerprint := fp,
      created_at := now, last_accessed := now,
      expires_at := now + ttl * 60, access_count := 0, is_active := true,
      revoked_at := none, revoke_reason := none }
  let ids := (alookup user_id st.user_sessions).getD []
  let ids2 := if new_sid ∈ ids then ids else ids ++ [new_sid]
  { st with
    active_sessions := aset new_sid sd st.active_sessions,
    user_sessions := aset user_id ids2 st.user_sessions,
    used_ids := st.used_ids ++ [new_sid] }

/-- `create_session(user_id, client_ip, user_agent, device_fingerprint)`
(lines 29-81): lazy cleanup, live-session census, eviction at the cap,
storage.  The fresh SHA-256 session id is the explicit argument
`new_sid`; `uaHash` is the SHA-256-prefix hash of the user agent, and
`ttl` the configured `ACCESS_TOKEN_EXPIRE_MINUTES`. -/
def create_session (now : ℤ) (new_sid : String) (uaHash : String → String)
    (ttl : ℤ) (st : SessionState) (user_id client_ip user_agent : String)
    (fp : Option String) : SessionState × String :=
  let st1 := _cleanup_expired_sessions now st
  let pair := _get_user_sessions now st1 user_id
  let st3 := _evict_if_full now pair.1 pair.2
  (_insert_new_session now ttl uaHash st3 new_sid user_id client_ip user_agent fp,
    new_sid)

/-- The IPv4 mobile-network tolerance of `validate_session` (lines
119-132): a differing IP passes only when both are dotted quads agreeing
on the first three octets. -/
def ipTolerated (stored current : String) : Bool :=
  let sp := stored.splitOn "."
  let cp := current.splitOn "."
  if sp.length = 4 && cp.length = 4 then decide (sp.take 3 = cp.take 3)
  else false

/-- `validate_session(session_id, client_ip, user_agent,
require_ip_match)` (lines 83-150): existence, revocation, expiry (with
revocation on expiry), `is_active`, IP binding with tolerance; a UA-hash
mismatch is only logged; then the access counters are updated and an
expiry closer than 30 minutes is slid forward by the full TTL. -/
def validate_session (now : ℤ) (uaHash : String → String) (ttl : ℤ)
    (st : SessionState) (sid client_ip user_agent : String)
    (require_ip_match : Bool) : SessionState × Option Session :=
  match alookup sid st.active_sessions with
  | none => (st, none)
  | some sd =>
      if sid ∈ st.revoked_sessions then (st, none)
      else if sd.expires_at < now then (revoke_session now st sid "expired", none)
      else if !sd.is_active then (st, none)
      else if require_ip_match && sd.client_ip ≠ client_ip
          && !ipTolerated sd.client_ip client_ip then (st, none)
      else
        let _ua_mismatch := uaHash user_agent ≠ sd.user_agent_hash
        let sd2 := { sd with last_accessed := now, access_count := sd.access_count + 1 }
        let sd3 := if sd2.expires_at - now < 30 * 60 then
            { sd2 with expires_at := now + ttl * 60 } else sd2
        ({ st with active_sessions := aset sid sd3 st.active_sessions }, some sd3)

/-- `revoke_user_sessions(user_id, except_session)` (lines 170-180). -/
def revoke_user_sessions (now : ℤ) (st : SessionState) (user_id : String)
    (except_session : Option String) : SessionState :=
  let pair := _get_user_sessions now st user_id
  pair.2.foldl (fun acc sid =>
    if except_session = some sid then acc
    else revoke_session now acc sid "user_logout_all") pair.1

/-- The empty initial state of the manager, stamped with its start-up
`time.time()`. -/
def initSessionState (t0 : ℤ) : SessionState := ⟨[], [], [], t0, []⟩

/-- One observable operation of the session manager, at a time `now2` not
earlier than the previous operation, with `create_session` receiving an
id that collides with no id handed out before. -/
inductive SessStep (uaHash : String → String) (ttl : ℤ) :
    ℤ × SessionState → ℤ × SessionState → Prop
  | create (now now2 : ℤ) (st : SessionState) (id user ip ua : String)
      (fp : Option String) (hmono : now ≤ now2) (hfresh : id ∉ st.used_ids) :
      SessStep uaHash ttl (now, st)
        (now2, (create_session now2 id uaHash ttl st user ip ua fp).1)
  | validate (now now2 : ℤ) (st : SessionState) (sid ip ua : String)
      (rim : Bool) (hmono : now ≤ now2) :
      SessStep uaHash ttl (now, st)
        (now2, (validate_session now2 uaHash ttl st sid ip ua rim).1)
  | revoke (now now2 : ℤ) (st : SessionState) (sid reason : String)
      (hmono : now ≤ now2) :
      SessStep uaHash ttl (now, st) (now2, revoke_session now2 st sid reason)
  | revokeUser (now now2 : ℤ) (st : SessionState) (user : String)
      (except_session : Option String) (hmono : now ≤ now2) :
      SessStep uaHash ttl (now, st)
        (now2, revoke_user_sessions now2 st user except_session)

/-- A session that counts against the cap: present, `is_active`,
unrevoked, unexpired, and belonging to `u`. -/
def IsLiveFor (now : ℤ) (st : SessionState) (u sid : String) : Prop :=
  ∃ sd, alookup sid st.active_sessions = some sd ∧ sd.user_id = u
    ∧ sd.is_active = true ∧ sid ∉ st.revoked_sessions ∧ now ≤ sd.expires_at

theorem alookup_cons {α : Type} (k : String) (p : String × α) (l : List (String × α)) :
    alookup k (p :: l) = if p.1 = k then some p.2 else alookup k l := by
  by_cases h : p.1 = k
  · rw [alookup, List.find?_cons_of_pos _ (by simp [h]), if_pos h]
    rfl
  · rw [alookup, List.find?_cons_of_neg _ (by simp [h]), if_neg h]
    rfl

theorem alookup_aset {α : Type} (k k2 : String) (v : α) (l : List (String × α)) :
    alookup k2 (aset k v l) = if k2 = k then some v else alookup k2 l := by
  induction l with
  | nil =>
      show alookup k2 [(k, v)] = _
      rw [alookup_cons]
      by_cases h : k2 = k
      · simp [h]
      · simp [h, Ne.symm h, alookup]
  | cons p rest ih =>
      obtain ⟨k0, v0⟩ := p
      by_cases h0 : k0 = k
      · subst h0
        rw [aset, if_pos rfl, alookup_cons, alookup_cons]
        by_cases h2 : k2 = k0
        · simp [h2]
        · simp [h2, Ne.symm h2]
      · rw [aset, if_neg h0, alookup_cons, alookup_cons, ih]
        by_cases h2 : k0 = k2
        · have h3 : ¬k2 = k := fun hh => h0 (h2.trans hh)
          simp [h2, h3]
        · simp [h2]

theorem alookup_aremove {α : Type} (k k2 : String) (l : List (String × α)) :
    alookup k2 (aremove k l) = if k2 = k then none else alookup k2 l := by
  induction l with
  | nil => simp [alookup, aremove]
  | cons p rest ih =>
      obtain ⟨k0, v0⟩ := p
      rw [aremove, List.filter_cons]
      by_cases h0 : k0 = k
      · subst h0
        simp only [ne_eq, not_true_eq_false, decide_False, Bool.false_eq_true, if_false]
        rw [aremove] at ih
        rw [ih, alookup_cons]
        by_cases h2 : k2 = k0
        · simp [h2]
        · simp [h2, Ne.symm h2]
      · simp only [ne_eq, h0, not_false_eq_true, decide_True, if_true]
        rw [alookup_cons]
        rw [aremove] at ih
        rw [ih, alookup_cons]
        by_cases h2 : k0 = k2
        · have h3 : ¬k2 = k := fun hh => h0 (h2.trans hh)
          simp [h2, h3]
        · simp [h2]

theorem sessionLive_iff (now : ℤ) (st : SessionState) (sid : String) :
    sessionLive now st sid = true
      ↔ ∃ sd, alookup sid st.active_sessions = some sd ∧ sd.is_active = true
          ∧ sid ∉ st.revoked_sessions ∧ now ≤ sd.expires_at := by
  rw [sessionLive]
  cases h : alookup sid st.active_sessions with
  | none => simp
  | some sd =>
      simp only [h, Option.some.injEq, Bool.and_eq_true, decide_eq_true_eq]
      constructor
      · rintro ⟨⟨h1, h2⟩, h3⟩
        exact ⟨sd, rfl, h2, h1, h3⟩
      · rintro ⟨sd2, heq, h2, h1, h3⟩
        cases heq
        exact ⟨⟨h1, h2⟩, h3⟩

theorem isLiveFor_iff (now : ℤ) (st : SessionState) (u sid : String) :
    IsLiveFor now st u sid
      ↔ sessionLive now st sid = true
        ∧ ∃ sd, alookup sid st.active_sessions = some sd ∧ sd.user_id = u := by
  rw [IsLiveFor, sessionLive_iff]
  constructor
  · rintro ⟨sd, h1, h2, h3, h4, h5⟩
    exact ⟨⟨sd, h1, h3, h4, h5⟩, sd, h1, h2⟩
  · rintro ⟨⟨sd, h1, h3, h4, h5⟩, sd2, h6, h7⟩
    rw [h1] at h6
    cases h6
    exact ⟨sd, h1, h7, h3, h4, h5⟩

/-- The inductive invariant of the session manager state, at a given
time: ids in the three maps were all handed out before; user id-lists are
duplicate-free; a session reachable from a user list belongs to that
user; every live session is tracked in its owner's list; and each user's
list holds at most 5 live sessions. -/
def SessInv (now : ℤ) (st : SessionState) : Prop :=
  (∀ sid sd, alookup sid st.active_sessions = some sd → sid ∈ st.used_ids)
  ∧ (∀ u ids, alookup u st.user_sessions = some ids → ∀ sid ∈ ids, sid ∈ st.used_ids)
  ∧ (∀ sid ∈ st.revoked_sessions, sid ∈ st.used_ids)
  ∧ (∀ u ids, alookup u st.user_sessions = some ids → ids.Nodup)
  ∧ (∀ u ids sid sd, alookup u st.user_sessions = some ids → sid ∈ ids →
      alookup sid st.active_sessions = some sd → sd.user_id = u)
  ∧ (∀ sid sd, alookup sid st.active_sessions = some sd →
      sessionLive now st sid = true →
      ∃ ids, alookup sd.user_id st.user_sessions = some ids ∧ sid ∈ ids)
  ∧ (∀ u ids, alookup u st.user_sessions = some ids →
      (ids.filter (sessionLive now st)).length ≤ 5)

theorem filter_length_mono {l2 l : List String} (p q : String → Bool)
    (hsub : List.Sublist l2 l) (h : ∀ x, p x = true → q x = true) :
    (l2.filter p).length ≤ (l.filter q).length :=
  List.Sublist.length_le
    ((List.monotone_filter_right l2 h).trans (hsub.filter q))

theorem sessionLive_time_mono (now now2 : ℤ) (st : SessionState) (sid : String)
    (hmono : now ≤ now2) (h : sessionLive now2 st sid = true) :
    sessionLive now st sid = true := by
  rw [sessionLive_iff] at h ⊢
  obtain ⟨sd, h1, h2, h3, h4⟩ := h
  exact ⟨sd, h1, h2, h3, le_trans hmono h4⟩

theorem sessInv_time_mono (now now2 : ℤ) (st : SessionState)
    (hmono : now ≤ now2) (hinv : SessInv now st) : SessInv now2 st := by
  obtain ⟨a1, a2, a8, a5, a3, a6, a7⟩ := hinv
  refine ⟨a1, a2, a8, a5, a3, ?_, ?_⟩
  · intro sid sd h1 hlive
    exact a6 sid sd h1 (sessionLive_time_mono now now2 st sid hmono hlive)
  · intro u ids h1
    exact le_trans
      (filter_length_mono _ _ (List.Sublist.refl ids)
        (fun x => sessionLive_time_mono now now2 st x hmono))
      (a7 u ids h1)

theorem mem_revoked_append (rev : List String) (x y : String) :
    (y ∈ if x ∈ rev then rev else rev ++ [x]) ↔ y ∈ rev ∨ y = x := by
  by_cases h : x ∈ rev
  · rw [if_pos h]
    constructor
    · exact Or.inl
    · rintro (hy | hy)
      · exact hy
      · exact hy ▸ h
  · rw [if_neg h]
    simp [List.mem_append]

theorem sessInv_revoke (now tR : ℤ) (st : SessionState) (x reason : String)
    (hinv : SessInv now st) : SessInv now (revoke_session tR st x reason) := by
  obtain ⟨act, rev, users, lc, used⟩ := st
  obtain ⟨a1, a2, a8, a5, a3, a6, a7⟩ := hinv
  dsimp only at a1 a2 a8 a5 a3 a6 a7
  cases hx : alookup x act with
  | none =>
      have heq : revoke_session tR ⟨act, rev, users, lc, used⟩ x reason
          = ⟨act, rev, users, lc, used⟩ := by
        rw [revoke_session]
        dsimp only
        rw [hx]
      rw [heq]
      exact ⟨a1, a2, a8, a5, a3, a6, a7⟩
  | some sd =>
      have heq : revoke_session tR ⟨act, rev, users, lc, used⟩ x reason
          = ⟨aset x
              { sd with
                is_active := false
                revoked_at := some tR
                revoke_reason := some reason } act,
             (if x ∈ rev then rev else rev ++ [x]),
             (match alookup sd.user_id users with
              | none => users
              | some ids => aset sd.user_id (ids.erase x) users),
             lc, used⟩ := by
        rw [revoke_session]
        dsimp only
        rw [hx]
      set sd2 : Session :=
        { sd with
          is_active := false
          revoked_at := some tR
          revoke_reason := some reason } with hsd2
      set users2 : List (String × List String) :=
        (match alookup sd.user_id users with
         | none => users
         | some ids => aset sd.user_id (ids.erase x) users) with husers2
      rw [heq, SessInv]
      dsimp only
      have hactive : ∀ y, alookup y (aset x sd2 act)
          = if y = x then some sd2 else alookup y act :=
        fun y => alookup_aset x y sd2 act
      have husersub : ∀ u ids2, alookup u users2 = some ids2 →
          ∃ ids, alookup u users = some ids ∧ List.Sublist ids2 ids := by
        intro u ids2 h
        rw [husers2] at h
        cases hu : alookup sd.user_id users with
        | none =>
            rw [hu] at h
            exact ⟨ids2, h, List.Sublist.refl ids2⟩
        | some ids =>
            rw [hu] at h
            dsimp only at h
            rw [alookup_aset] at h
            by_cases hequ : u = sd.user_id
            · rw [if_pos hequ] at h
              cases h
              exact ⟨ids, hequ ▸ hu, List.erase_sublist x ids⟩
            · rw [if_neg hequ] at h
              exact ⟨ids2, h, List.Sublist.refl ids2⟩
      have hlive : ∀ y, sessionLive now ⟨aset x sd2 act,
            (if x ∈ rev then rev else rev ++ [x]), users2, lc, used⟩ y = true →
          y ≠ x ∧ sessionLive now ⟨act, rev, users, lc, used⟩ y = true := by
        intro y hy
        rw [sessionLive_iff] at hy
        obtain ⟨sdy, hy1, hy2, hy3, hy4⟩ := hy
        dsimp only at hy1 hy3
        rw [hactive] at hy1
        rw [mem_revoked_append] at hy3
        push_neg at hy3
        obtain ⟨hy3a, hy3b⟩ := hy3
        rw [if_neg hy3b] at hy1
        exact ⟨hy3b, (sessionLive_iff _ _ y).mpr ⟨sdy, hy1, hy2, hy3a, hy4⟩⟩
      refine ⟨?_, ?_, ?_, ?_, ?_, ?_, ?_⟩
      · intro y sdy h
        rw [hactive] at h
        by_cases hyx : y = x
        · exact hyx ▸ a1 x sd hx
        · rw [if_neg hyx] at h
          exact a1 y sdy h
      · intro u ids2 h y hy
        obtain ⟨ids, hids, hsub⟩ := husersub u ids2 h
        exact a2 u ids hids y (hsub.mem hy)
      · intro y hy
        rw [mem_revoked_append] at hy
        rcases hy with hy | hy
        · exact a8 y hy
        · exact hy ▸ a1 x sd hx
      · intro u ids2 h
        obtain ⟨ids, hids, hsub⟩ := husersub u ids2 h
        exact (a5 u ids hids).sublist hsub
      · intro u ids2 y sdy h hy hy2
        obtain ⟨ids, hids, hsub⟩ := husersub u ids2 h
        rw [hactive] at hy2
        by_cases hyx : y = x
        · subst hyx
          rw [if_pos rfl] at hy2
          cases hy2
          show sd.user_id = u
          exact a3 u ids y sd hids (hsub.mem hy) hx
        · rw [if_neg hyx] at hy2
          exact a3 u ids y sdy hids (hsub.mem hy) hy2
      · intro y sdy h hylive
        obtain ⟨hyx, hyliveold⟩ := hlive y hylive
        rw [hactive, if_neg hyx] at h
        obtain ⟨ids, hids, hmem⟩ := a6 y sdy h hyliveold
        rw [husers2]
        cases hu : alookup sd.user_id users with
        | none =>
            exact ⟨ids, hids, hmem⟩
        | some ids0 =>
            dsimp only
            rw [alookup_aset]
            by_cases hequ : sdy.user_id = sd.user_id
            · rw [if_pos hequ]
              refine ⟨ids0.erase x, rfl, ?_⟩
              have hie : ids = ids0 := by
                rw [hequ] at hids
                rw [hids] at hu
                cases hu
                rfl
              subst hie
              exact (List.mem_erase_of_ne hyx).mpr hmem
            · rw [if_neg hequ]
              exact ⟨ids, hids, hmem⟩
      · intro u ids2 h
        obtain ⟨ids, hids, hsub⟩ := husersub u ids2 h
        refine le_trans (filter_length_mono _ _ hsub ?_) (a7 u ids hids)
        intro y hy
        exact (hlive y hy).2

theorem used_ids_revoke (tR : ℤ) (st : SessionState) (x reason : String) :
    (revoke_session tR st x reason).used_ids = st.used_ids := by
  cases hx : alookup x st.active_sessions <;> rw [revoke_session, hx]

theorem used_ids_getuser (now : ℤ) (st : SessionState) (u : String) :
    (_get_user_sessions now st u).1.used_ids = st.used_ids := by
  cases hu : alookup u st.user_sessions <;> rw [_get_user_sessions, hu]

theorem used_ids_cleanup (now : ℤ) (st : SessionState) :
    (_cleanup_expired_sessions now st).used_ids = st.used_ids := by
  rw [_cleanup_expired_sessions]
  by_cases h : now - st.last_cleanup < 300
  · rw [if_pos h]
  · rw [if_neg h]
    dsimp only
    have h1 : ∀ (l : List String) (s : SessionState),
        (l.foldl (fun acc sid => revoke_session now acc sid "expired") s).used_ids
          = s.used_ids := by
      intro l
      induction l with
      | nil => intro s; rfl
      | cons a rest ih =>
          intro s
          rw [List.foldl_cons, ih, used_ids_revoke]
    have h2 : ∀ (l : List String) (s : SessionState),
        (l.foldl (fun acc sid =>
          { acc with
            revoked_sessions := acc.revoked_sessions.erase sid
            active_sessions := aremove sid acc.active_sessions }) s).used_ids
          = s.used_ids := by
      intro l
      induction l with
      | nil => intro s; rfl
      | cons a rest ih =>
          intro s
          rw [List.foldl_cons, ih]
    rw [h2, h1]

theorem sessInv_purge (now : ℤ) (st : SessionState) (x : String)
    (hinv : SessInv now st) :
    SessInv now { st with
      revoked_sessions := st.revoked_sessions.erase x
      active_sessions := aremove x st.active_sessions } := by
  obtain ⟨act, rev, users, lc, used⟩ := st
  obtain ⟨a1, a2, a8, a5, a3, a6, a7⟩ := hinv
  dsimp only at a1 a2 a8 a5 a3 a6 a7 ⊢
  rw [SessInv]
  dsimp only
  have hactive : ∀ y, alookup y (aremove x act)
      = if y = x then none else alookup y act := fun y => alookup_aremove x y act
  have hlive : ∀ y, sessionLive now ⟨aremove x act, rev.erase x, users, lc, used⟩ y = true →
      y ≠ x ∧ sessionLive now ⟨act, rev, users, lc, used⟩ y = true := by
    intro y hy
    rw [sessionLive_iff] at hy
    obtain ⟨sdy, hy1, hy2, hy3, hy4⟩ := hy
    dsimp only at hy1 hy3
    rw [hactive] at hy1
    by_cases hyx : y = x
    · rw [if_pos hyx] at hy1; cases hy1
    · rw [if_neg hyx] at hy1
      have hy3b : y ∉ rev := fun hmem => hy3 ((List.mem_erase_of_ne hyx).mpr hmem)
      exact ⟨hyx, (sessionLive_iff _ _ y).mpr ⟨sdy, hy1, hy2, hy3b, hy4⟩⟩
  refine ⟨?_, ?_, ?_, ?_, ?_, ?_, ?_⟩
  · intro y sdy h
    rw [hactive] at h
    by_cases hyx : y = x
    · rw [if_pos hyx] at h; cases h
    · rw [if_neg hyx] at h
      exact a1 y sdy h
  · exact a2
  · intro y hy
    exact a8 y (List.mem_of_mem_erase hy)
  · exact a5
  · intro u ids y sdy h hy hy2
    rw [hactive] at hy2
    by_cases hyx : y = x
    · rw [if_pos hyx] at hy2; cases hy2
    · rw [if_neg hyx] at hy2
      exact a3 u ids y sdy h hy hy2
  · intro y sdy h hylive
    obtain ⟨hyx, hyliveold⟩ := hlive y hylive
    rw [hactive, if_neg hyx] at h
    exact a6 y sdy h hyliveold
  · intro u ids h
    refine le_trans (filter_length_mono _ _ (List.Sublist.refl ids) ?_) (a7 u ids h)
    intro y hy
    exact (hlive y hy).2

theorem sessInv_set_lastCleanup (now t : ℤ) (st : SessionState)
    (hinv : SessInv now st) : SessInv now { st with last_cleanup := t } := by
  obtain ⟨act, rev, users, lc, used⟩ := st
  exact hinv

theorem sessInv_cleanup (now : ℤ) (st : SessionState) (hinv : SessInv now st) :
    SessInv now (_cleanup_expired_sessions now st) := by
  rw [_cleanup_expired_sessions]
  by_cases h : now - st.last_cleanup < 300
  · rw [if_pos h]; exact hinv
  · rw [if_neg h]
    dsimp only
    have h1 : ∀ (l : List String) (s : SessionState), SessInv now s →
        SessInv now (l.foldl (fun acc sid => revoke_session now acc sid "expired") s) := by
      intro l
      induction l with
      | nil => intro s hs; exact hs
      | cons a rest ih =>
          intro s hs
          rw [List.foldl_cons]
          exact ih _ (sessInv_revoke now now s a "expired" hs)
    have h2 : ∀ (l : List String) (s : SessionState), SessInv now s →
        SessInv now (l.foldl (fun acc sid =>
          { acc with
            revoked_sessions := acc.revoked_sessions.erase sid
            active_sessions := aremove sid acc.active_sessions }) s) := by
      intro l
      induction l with
      | nil => intro s hs; exact hs
      | cons a rest ih =>
          intro s hs
          rw [List.foldl_cons]
          exact ih _ (sessInv_purge now s a hs)
    exact sessInv_set_lastCleanup now now _ (h2 _ _ (h1 _ _ hinv))

theorem sessInv_getuser (now : ℤ) (st : SessionState) (u : String)
    (hinv : SessInv now st) : SessInv now (_get_user_sessions now st u).1 := by
  obtain ⟨act, rev, users, lc, used⟩ := st
  obtain ⟨a1, a2, a8, a5, a3, a6, a7⟩ := hinv
  dsimp only at a1 a2 a8 a5 a3 a6 a7
  cases hu : alookup u users with
  | none =>
      rw [_get_user_sessions]
      dsimp only
      rw [hu]
      exact ⟨a1, a2, a8, a5, a3, a6, a7⟩
  | some ids0 =>
      rw [_get_user_sessions]
      dsimp only
      rw [hu]
      dsimp only
      rw [SessInv]
      dsimp only
      have hliveeq : ∀ y, sessionLive now
          ⟨act, rev, aset u (ids0.filter
            (sessionLive now ⟨act, rev, users, lc, used⟩)) users, lc, used⟩ y
          = sessionLive now ⟨act, rev, users, lc, used⟩ y := fun y => rfl
      set flt := ids0.filter (sessionLive now ⟨act, rev, users, lc, used⟩) with hflt
      have husers : ∀ u2, alookup u2 (aset u flt users)
          = if u2 = u then some flt else alookup u2 users :=
        fun u2 => alookup_aset u u2 flt users
      refine ⟨a1, ?_, a8, ?_, ?_, ?_, ?_⟩
      · intro u2 ids h y hy
        rw [husers] at h
        by_cases hequ : u2 = u
        · rw [if_pos hequ] at h
          cases h
          exact a2 u ids0 (hequ ▸ hu) y (List.mem_of_mem_filter hy)
        · rw [if_neg hequ] at h
          exact a2 u2 ids h y hy
      · intro u2 ids h
        rw [husers] at h
        by_cases hequ : u2 = u
        · rw [if_pos hequ] at h
          cases h
          exact (a5 u ids0 (hequ ▸ hu)).filter _
        · rw [if_neg hequ] at h
          exact a5 u2 ids h
      · intro u2 ids y sdy h hy hy2
        rw [husers] at h
        by_cases hequ : u2 = u
        · rw [if_pos hequ] at h
          cases h
          exact hequ ▸ a3 u ids0 y sdy (hequ ▸ hu) (List.mem_of_mem_filter hy) hy2
        · rw [if_neg hequ] at h
          exact a3 u2 ids y sdy h hy hy2
      · intro y sdy h hylive
        rw [hliveeq] at hylive
        obtain ⟨ids, hids, hmem⟩ := a6 y sdy h hylive
        rw [husers]
        by_cases hequ : sdy.user_id = u
        · rw [if_pos hequ]
          refine ⟨flt, rfl, ?_⟩
          have hie : ids = ids0 := by
            rw [hequ] at hids
            rw [hids] at hu
            cases hu
            rfl
          subst hie
          exact List.mem_filter.mpr ⟨hmem, hylive⟩
        · rw [if_neg hequ]
          exact ⟨ids, hids, hmem⟩
      · intro u2 ids h
        rw [husers] at h
        by_cases hequ : u2 = u
        · rw [if_pos hequ] at h
          cases h
          have hff : flt.filter (sessionLive now
              ⟨act, rev, aset u flt users, lc, used⟩) = flt := by
            apply List.filter_eq_self.mpr
            intro y hy
            rw [hflt] at hy
            exact List.of_mem_filter hy
          rw [hff, hflt]
          exact a7 u ids0 hu
        · rw [if_neg hequ] at h
          refine le_trans (filter_length_mono _ _ (List.Sublist.refl ids) ?_) (a7 u2 ids h)
          intro y hy
          rw [hliveeq] at hy
          exact hy

theorem sessInv_refresh (now : ℤ) (act : List (String × Session)) (rev : List String)
    (users : List (String × List String)) (lc : ℤ) (used : List String)
    (sid : String) (sd sdN : Session)
    (hs : alookup sid act = some sd)
    (huser : sdN.user_id = sd.user_id)
    (hlive_old : sessionLive now ⟨act, rev, users, lc, used⟩ sid = true)
    (hinv : SessInv now ⟨act, rev, users, lc, used⟩) :
    SessInv now ⟨aset sid sdN act, rev, users, lc, used⟩ := by
  obtain ⟨a1, a2, a8, a5, a3, a6, a7⟩ := hinv
  dsimp only at a1 a2 a8 a5 a3 a6 a7
  rw [SessInv]
  dsimp only
  have hactive : ∀ y, alookup y (aset sid sdN act)
      = if y = sid then some sdN else alookup y act :=
    fun y => alookup_aset sid y sdN act
  have hlive : ∀ y, sessionLive now ⟨aset sid sdN act, rev, users, lc, used⟩ y = true →
      sessionLive now ⟨act, rev, users, lc, used⟩ y = true := by
    intro y hy
    by_cases hyx : y = sid
    · exact hyx ▸ hlive_old
    · rw [sessionLive_iff] at hy
      obtain ⟨sdy, hy1, hy2, hy3, hy4⟩ := hy
      dsimp only at hy1 hy3
      rw [hactive, if_neg hyx] at hy1
      exact (sessionLive_iff _ _ y).mpr ⟨sdy, hy1, hy2, hy3, hy4⟩
  refine ⟨?_, a2, a8, a5, ?_, ?_, ?_⟩
  · intro y sdy h
    rw [hactive] at h
    by_cases hyx : y = sid
    · exact hyx ▸ a1 sid sd hs
    · rw [if_neg hyx] at h
      exact a1 y sdy h
  · intro u ids y sdy h hy hy2
    rw [hactive] at hy2
    by_cases hyx : y = sid
    · subst hyx
      rw [if_pos rfl] at hy2
      cases hy2
      rw [huser]
      exact a3 u ids y sd h hy hs

    · rw [if_neg hyx] at hy2
      exact a3 u ids y sdy h hy hy2
  · intro y sdy h hylive
    have hyliveold := hlive y hylive
    rw [hactive] at h
    by_cases hyx : y = sid
    · subst hyx
      rw [if_pos rfl] at h
      cases h
      rw [huser]
      exact a6 y sd hs hlive_old
    · rw [if_neg hyx] at h
      exact a6 y sdy h hyliveold
  · intro u ids h
    refine le_trans (filter_length_mono _ _ (List.Sublist.refl ids) ?_) (a7 u ids h)
    intro y hy
    exact hlive y hy

theorem sessInv_validate (now : ℤ) (uaHash : String → String) (ttl : ℤ)
    (st : SessionState) (sid ip ua : String) (rim : Bool) (hinv : SessInv now st) :
    SessInv now (validate_session now uaHash ttl st sid ip ua rim).1 := by
  obtain ⟨act, rev, users, lc, used⟩ := st
  rw [validate_session]
  dsimp only
  cases hs : alookup sid act with
  | none => exact hinv
  | some sd =>
      dsimp only
      by_cases h1 : sid ∈ rev
      · rw [if_pos h1]
        exact hinv
      · rw [if_neg h1]
        by_cases h2 : sd.expires_at < now
        · rw [if_pos h2]
          exact sessInv_revoke now now ⟨act, rev, users, lc, used⟩ sid "expired" hinv
        · rw [if_neg h2]
          cases ha : sd.is_active with
          | false =>
              exact hinv
          | true =>
              by_cases h4 : (rim && decide (sd.client_ip ≠ ip)
                  && !ipTolerated sd.client_ip ip) = true
              · rw [if_pos h4]
                exact hinv
              · rw [if_neg h4]
                have hlive_old : sessionLive now ⟨act, rev, users, lc, used⟩ sid = true :=
                  (sessionLive_iff _ _ sid).mpr ⟨sd, hs, ha, h1, by omega⟩
                apply sessInv_refresh now act rev users lc used sid sd _ hs _ hlive_old hinv
                split <;> rfl

theorem used_ids_evict (now : ℤ) (st : SessionState) (current : List String) :
    (_evict_if_full now st current).used_ids = st.used_ids := by
  rw [_evict_if_full]
  by_cases h : 5 ≤ current.length
  · rw [if_pos h]
    cases ho : oldestSession st current
    · rfl
    · exact used_ids_revoke now st _ "session_limit_exceeded"
  · rw [if_neg h]

theorem sessInv_evict (now : ℤ) (st : SessionState) (current : List String)
    (hinv : SessInv now st) : SessInv now (_evict_if_full now st current) := by
  rw [_evict_if_full]
  by_cases h : 5 ≤ current.length
  · rw [if_pos h]
    cases ho : oldestSession st current
    · exact hinv
    · exact sessInv_revoke now now st _ "session_limit_exceeded" hinv
  · rw [if_neg h]
    exact hinv

theorem revoke_users_owner (tR : ℤ) (st : SessionState) (x reason : String)
    (sd : Session) (hx : alookup x st.active_sessions = some sd)
    (ids : List String) (hids : alookup sd.user_id st.user_sessions = some ids) :
    alookup sd.user_id (revoke_session tR st x reason).user_sessions
      = some (ids.erase x) := by
  obtain ⟨act, rev, users, lc, used⟩ := st
  rw [revoke_session]
  dsimp only at hx hids ⊢
  rw [hx]
  dsimp only
  rw [hids]
  dsimp only
  rw [alookup_aset, if_pos rfl]

theorem oldestSession_fold (st : SessionState) :
    ∀ (rest : List String) (a : String),
      (rest.foldl (fun best s =>
          if createdOf st s < createdOf st best then s else best) a) ∈ a :: rest
      ∧ ∀ y ∈ a :: rest,
          createdOf st (rest.foldl (fun best s =>
            if createdOf st s < createdOf st best then s else best) a)
          ≤ createdOf st y := by
  intro rest
  induction rest with
  | nil =>
      intro a
      exact ⟨List.mem_singleton.mpr rfl, by
        intro y hy
        rw [List.mem_singleton] at hy
        exact hy ▸ le_refl _⟩
  | cons b rest ih =>
      intro a
      rw [List.foldl_cons]
      set c := if createdOf st b < createdOf st a then b else a with hc
      obtain ⟨hmem, hmin⟩ := ih c
      have hcmem : c = b ∨ c = a := by
        rw [hc]
        by_cases hb : createdOf st b < createdOf st a
        · rw [if_pos hb]; exact Or.inl rfl
        · rw [if_neg hb]; exact Or.inr rfl
      have hca : createdOf st c ≤ createdOf st a := by
        rw [hc]
        by_cases hb : createdOf st b < createdOf st a
        · rw [if_pos hb]; exact le_of_lt hb
        · rw [if_neg hb]
      have hcb : createdOf st c ≤ createdOf st b := by
        rw [hc]
        by_cases hb : createdOf st b < createdOf st a
        · rw [if_pos hb]
        · rw [if_neg hb]; exact le_of_not_lt hb
      have hresc : createdOf st (rest.foldl (fun best s =>
          if createdOf st s < createdOf st best then s else best) c)
          ≤ createdOf st c := hmin c (List.mem_cons_self ..)
      constructor
      · rcases List.mem_cons.mp hmem with h | h
        · rcases hcmem with h2 | h2
          · rw [h, h2]
            exact List.mem_cons_of_mem _ (List.mem_cons_self ..)
          · rw [h, h2]
            exact List.mem_cons_self ..
        · exact List.mem_cons_of_mem _ (List.mem_cons_of_mem _ h)
      · intro y hy
        rcases List.mem_cons.mp hy with h | h
        · exact h ▸ le_trans hresc hca
        · rcases List.mem_cons.mp h with h2 | h2
          · exact h2 ▸ le_trans hresc hcb
          · exact hmin y (List.mem_cons_of_mem _ h2)

theorem oldestSession_spec (st : SessionState) (l : List String) (hl : l ≠ []) :
    ∃ oldest, oldestSession st l = some oldest ∧ oldest ∈ l
      ∧ ∀ y ∈ l, createdOf st oldest ≤ createdOf st y := by
  cases l with
  | nil => exact absurd rfl hl
  | cons a rest =>
      obtain ⟨hmem, hmin⟩ := oldestSession_fold st rest a
      exact ⟨_, rfl, hmem, hmin⟩

theorem sessInv_insert (now ttl : ℤ) (uaHash : String → String) (st : SessionState)
    (new_sid u ip ua : String) (fp : Option String)
    (hfresh : new_sid ∉ st.used_ids)
    (hcap4 : ∀ l, alookup u st.user_sessions = some l →
      (l.filter (sessionLive now st)).length ≤ 4)
    (hinv : SessInv now st) :
    SessInv now (_insert_new_session now ttl uaHash st new_sid u ip ua fp) := by
  obtain ⟨act, rev, users, lc, used⟩ := st
  obtain ⟨a1, a2, a8, a5, a3, a6, a7⟩ := hinv
  dsimp only at a1 a2 a8 a5 a3 a6 a7 hfresh hcap4
  rw [_insert_new_session]
  dsimp only
  set sd : Session :=
    { user_id := u, session_id := new_sid, client_ip := ip,
      user_agent_hash := uaHash ua, device_fingerprint := fp,
      created_at := now, last_accessed := now,
      expires_at := now + ttl * 60, access_count := 0, is_active := true,
      revoked_at := none, revoke_reason := none } with hsd
  set ids := (alookup u users).getD [] with hids
  have hidsused : ∀ y ∈ ids, y ∈ used := by
    intro y hy
    rw [hids] at hy
    cases hu : alookup u users with
    | none => rw [hu] at hy; cases hy
    | some l =>
        rw [hu] at hy
        exact a2 u l hu y hy
  have hnotin : new_sid ∉ ids := fun hmem => hfresh (hidsused new_sid hmem)
  have hids2 : (if new_sid ∈ ids then ids else ids ++ [new_sid]) = ids ++ [new_sid] :=
    if_neg hnotin
  rw [hids2, SessInv]
  dsimp only
  have hactive : ∀ y, alookup y (aset new_sid sd act)
      = if y = new_sid then some sd else alookup y act :=
    fun y => alookup_aset new_sid y sd act
  have husers : ∀ u2, alookup u2 (aset u (ids ++ [new_sid]) users)
      = if u2 = u then some (ids ++ [new_sid]) else alookup u2 users :=
    fun u2 => alookup_aset u u2 (ids ++ [new_sid]) users
  have hlivene : ∀ y, y ≠ new_sid →
      sessionLive now ⟨aset new_sid sd act, rev, aset u (ids ++ [new_sid]) users,
        lc, used ++ [new_sid]⟩ y
      = sessionLive now ⟨act, rev, users, lc, used⟩ y := by
    intro y hy
    rw [sessionLive, sessionLive]
    dsimp only
    rw [hactive, if_neg hy]
  refine ⟨?_, ?_, ?_, ?_, ?_, ?_, ?_⟩
  · intro y sdy h
    rw [hactive] at h
    by_cases hyx : y = new_sid
    · exact hyx ▸ List.mem_append_right used (List.mem_singleton.mpr rfl)
    · rw [if_neg hyx] at h
      exact List.mem_append_left _ (a1 y sdy h)
  · intro u2 ids2 h y hy
    rw [husers] at h
    by_cases hequ : u2 = u
    · rw [if_pos hequ] at h
      cases h
      rcases List.mem_append.mp hy with h2 | h2
      · exact List.mem_append_left _ (hidsused y h2)
      · exact List.mem_append_right used h2
    · rw [if_neg hequ] at h
      exact List.mem_append_left _ (a2 u2 ids2 h y hy)
  · intro y hy
    exact List.mem_append_left _ (a8 y hy)
  · intro u2 ids2 h
    rw [husers] at h
    by_cases hequ : u2 = u
    · rw [if_pos hequ] at h
      cases h
      have hnd : ids.Nodup := by
        rw [hids]
        cases hu : alookup u users with
        | none => exact List.nodup_nil
        | some l => exact a5 u l hu
      refine List.nodup_append.mpr ⟨hnd, List.nodup_singleton _, ?_⟩
      intro y hy hy2
      rw [List.mem_singleton] at hy2
      exact hnotin (hy2 ▸ hy)
    · rw [if_neg hequ] at h
      exact a5 u2 ids2 h
  · intro u2 ids2 y sdy h hy hy2
    rw [husers] at h
    rw [hactive] at hy2
    by_cases hyx : y = new_sid
    · rw [if_pos hyx] at hy2
      injection hy2 with hy2
      subst hy2
      show u = u2
      by_cases hequ : u2 = u
      · exact hequ.symm
      · rw [if_neg hequ] at h
        exact absurd (hyx ▸ a2 u2 ids2 h y hy) hfresh
    · rw [if_neg hyx] at hy2
      by_cases hequ : u2 = u
      · rw [if_pos hequ] at h
        cases h
        rcases List.mem_append.mp hy with h2 | h2
        · rw [hids] at h2
          cases hu : alookup u users with
          | none => rw [hu] at h2; cases h2
          | some l =>
              rw [hu] at h2
              exact hequ ▸ a3 u l y sdy hu h2 hy2
        · rw [List.mem_singleton] at h2
          exact absurd h2 hyx
      · rw [if_neg hequ] at h
        exact a3 u2 ids2 y sdy h hy hy2
  · intro y sdy h hylive
    rw [hactive] at h
    by_cases hyx : y = new_sid
    · rw [if_pos hyx] at h
      injection h with h
      subst h
      rw [husers]
      refine ⟨ids ++ [new_sid], ?_, ?_⟩
      · show (if u = u then some (ids ++ [new_sid]) else alookup u users)
          = some (ids ++ [new_sid])
        rw [if_pos rfl]
      · rw [hyx]
        exact List.mem_append_right ids (List.mem_singleton.mpr rfl)
    · rw [if_neg hyx] at h
      rw [hlivene y hyx] at hylive
      obtain ⟨idsy, hidsy, hmemy⟩ := a6 y sdy h hylive
      rw [husers]
      by_cases hequ : sdy.user_id = u
      · rw [if_pos hequ]
        refine ⟨ids ++ [new_sid], rfl, ?_⟩
        apply List.mem_append_left
        rw [hids]
        rw [hequ] at hidsy
        rw [hidsy]
        exact hmemy

      · rw [if_neg hequ]
        exact ⟨idsy, hidsy, hmemy⟩
  · intro u2 ids2 h
    rw [husers] at h
    by_cases hequ : u2 = u
    · rw [if_pos hequ] at h
      cases h
      rw [List.filter_append, List.length_append]
      have hcount : (ids.filter (sessionLive now ⟨aset new_sid sd act, rev,
          aset u (ids ++ [new_sid]) users, lc, used ++ [new_sid]⟩)).length ≤ 4 := by
        rw [List.filter_congr (fun y hy => hlivene y
          (fun hh => hnotin (hh ▸ hy)))]
        rw [hids]
        cases hu : alookup u users with
        | none => simp
        | some l =>
            have := hcap4 l hu
            simpa using this
      have hone : (List.filter (sessionLive now ⟨aset new_sid sd act, rev,
          aset u (ids ++ [new_sid]) users, lc, used ++ [new_sid]⟩)
            [new_sid]).length ≤ 1 :=
        le_trans (List.length_filter_le _ _) (by simp)
      omega
    · rw [if_neg hequ] at h
      have hmem : ∀ y ∈ ids2, y ≠ new_sid := by
        intro y hy hh
        exact hfresh (hh ▸ a2 u2 ids2 h y hy)
      rw [List.filter_congr (fun y hy => hlivene y (hmem y hy))]
      exact a7 u2 ids2 h

theorem getuser_snd_none (now : ℤ) (st : SessionState) (u : String)
    (hu : alookup u st.user_sessions = none) :
    _get_user_sessions now st u = (st, []) := by
  rw [_get_user_sessions, hu]

theorem getuser_snd_some (now : ℤ) (st : SessionState) (u : String)
    (ids0 : List String) (hu : alookup u st.user_sessions = some ids0) :
    _get_user_sessions now st u
      = ({ st with
            user_sessions := aset u (ids0.filter (sessionLive now st))
              st.user_sessions },
         ids0.filter (sessionLive now st)) := by
  rw [_get_user_sessions, hu]

theorem sessionLive_getuser (now : ℤ) (st : SessionState) (u : String) (y : String) :
    sessionLive now (_get_user_sessions now st u).1 y = sessionLive now st y := by
  cases hu : alookup u st.user_sessions with
  | none => rw [getuser_snd_none now st u hu]
  | some ids0 =>
      rw [getuser_snd_some now st u ids0 hu]
      obtain ⟨act, rev, users, lc, used⟩ := st
      rfl

/-- After the census and the conditional eviction of `create_session`, the
acting user's tracked list filters to at most 4 live sessions, so the
insertion restores the cap. -/
theorem evict_cap4 (now : ℤ) (st2 : SessionState) (u : String)
    (current : List String)
    (hinv2 : SessInv now st2)
    (hu2 : alookup u st2.user_sessions = some current)
    (hcur : ∀ y ∈ current, sessionLive now st2 y = true) :
    ∀ l, alookup u (_evict_if_full now st2 current).user_sessions = some l →
      (l.filter (sessionLive now (_evict_if_full now st2 current))).length ≤ 4 := by
  obtain ⟨a1, a2, a8, a5, a3, a6, a7⟩ := hinv2
  rw [_evict_if_full]
  by_cases hfull : 5 ≤ current.length
  · rw [if_pos hfull]
    have hne : current ≠ [] := by
      intro hh
      rw [hh] at hfull
      simp at hfull
    obtain ⟨oldest, ho, homem, homin⟩ := oldestSession_spec st2 current hne
    rw [ho]
    have holive := hcur oldest homem
    rw [sessionLive_iff] at holive
    obtain ⟨sdo, ho1, ho2, ho3, ho4⟩ := holive
    have houser : sdo.user_id = u := a3 u current oldest sdo hu2 homem ho1
    have husers3 : alookup u (revoke_session now st2 oldest
        "session_limit_exceeded").user_sessions = some (current.erase oldest) := by
      have := revoke_users_owner now st2 oldest "session_limit_exceeded" sdo ho1
        current (houser ▸ hu2)
      rw [houser] at this
      exact this
    intro l hl
    rw [husers3] at hl
    cases hl
    have hlen : current.length ≤ 5 := by
      have h7 := a7 u current hu2
      have heq : current.filter (sessionLive now st2) = current :=
        List.filter_eq_self.mpr hcur
      rw [heq] at h7
      exact h7
    calc ((current.erase oldest).filter _).length
        ≤ (current.erase oldest).length := List.length_filter_le _ _
      _ = current.length - 1 := List.length_erase_of_mem homem
      _ ≤ 4 := by omega
  · rw [if_neg hfull]
    intro l hl
    rw [hu2] at hl
    cases hl
    calc (current.filter _).length ≤ current.length := List.length_filter_le _ _
      _ ≤ 4 := by omega

theorem used_ids_create (now ttl : ℤ) (uaHash : String → String)
    (st : SessionState) (id u ip ua : String) (fp : Option String) :
    (create_session now id uaHash ttl st u ip ua fp).1.used_ids
      = st.used_ids ++ [id] := by
  rw [create_session]
  dsimp only
  rw [_insert_new_session]
  dsimp only
  rw [used_ids_evict, used_ids_getuser, used_ids_cleanup]

theorem sessInv_create (now ttl : ℤ) (uaHash : String → String)
    (st : SessionState) (id u ip ua : String) (fp : Option String)
    (hfresh : id ∉ st.used_ids) (hinv : SessInv now st) :
    SessInv now (create_session now id uaHash ttl st u ip ua fp).1 := by
  rw [create_session]
  dsimp only
  have hinv1 : SessInv now (_cleanup_expired_sessions now st) :=
    sessInv_cleanup now st hinv
  set st1 := _cleanup_expired_sessions now st with hst1
  have hinv2 : SessInv now (_get_user_sessions now st1 u).1 :=
    sessInv_getuser now st1 u hinv1
  have hinv3 : SessInv now (_evict_if_full now (_get_user_sessions now st1 u).1
      (_get_user_sessions now st1 u).2) :=
    sessInv_evict now _ _ hinv2
  have hfresh3 : id ∉ (_evict_if_full now (_get_user_sessions now st1 u).1
      (_get_user_sessions now st1 u).2).used_ids := by
    rw [used_ids_evict, used_ids_getuser, used_ids_cleanup]
    exact hfresh
  apply sessInv_insert now ttl uaHash _ id u ip ua fp hfresh3 _ hinv3
  -- the cap-4 obligation for the acting user
  cases hu1 : alookup u st1.user_sessions with
  | none =>
      rw [getuser_snd_none now st1 u hu1]
      rw [_evict_if_full]
      have : ¬(5 : ℕ) ≤ ([] : List String).length := by simp
      rw [if_neg this]
      intro l hl
      rw [hu1] at hl
      cases hl
  | some ids0 =>
      rw [getuser_snd_some now st1 u ids0 hu1] at hinv2 ⊢
      apply evict_cap4 now _ u _ hinv2
      · show alookup u (aset u (ids0.filter (sessionLive now st1))
            st1.user_sessions) = _
        rw [alookup_aset, if_pos rfl]
      · intro y hy
        exact List.of_mem_filter hy

theorem sessInv_revokeUser (now : ℤ) (st : SessionState) (user : String)
    (except_session : Option String) (hinv : SessInv now st) :
    SessInv now (revoke_user_sessions now st user except_session) := by
  rw [revoke_user_sessions]
  have hfold : ∀ (l : List String) (s : SessionState), SessInv now s →
      SessInv now (l.foldl (fun acc sid =>
        if except_session = some sid then acc
        else revoke_session now acc sid "user_logout_all") s) := by
    intro l
    induction l with
    | nil => intro s hs; exact hs
    | cons a rest ih =>
        intro s hs
        rw [List.foldl_cons]
        by_cases h : except_session = some a
        · rw [if_pos h]
          exact ih s hs
        · rw [if_neg h]
          exact ih _ (sessInv_revoke now now s a "user_logout_all" hs)
  exact hfold _ _ (sessInv_getuser now st user hinv)

theorem sessInv_init (t0 : ℤ) : SessInv t0 (initSessionState t0) := by
  refine ⟨?_, ?_, ?_, ?_, ?_, ?_, ?_⟩ <;>
    simp [initSessionState, alookup]

theorem sessInv_step (uaHash : String → String) (ttl : ℤ) (s s2 : ℤ × SessionState)
    (hstep : SessStep uaHash ttl s s2) (hinv : SessInv s.1 s.2) :
    SessInv s2.1 s2.2 := by
  cases hstep with
  | create now now2 st id user ip ua fp hmono hfresh =>
      exact sessInv_create now2 ttl uaHash st id user ip ua fp hfresh
        (sessInv_time_mono now now2 st hmono hinv)
  | validate now now2 st sid ip ua rim hmono =>
      exact sessInv_validate now2 uaHash ttl st sid ip ua rim
        (sessInv_time_mono now now2 st hmono hinv)
  | revoke now now2 st sid reason hmono =>
      exact sessInv_revoke now2 now2 st sid reason
        (sessInv_time_mono now now2 st hmono hinv)
  | revokeUser now now2 st user except_session hmono =>
      exact sessInv_revokeUser now2 st user except_session
        (sessInv_time_mono now now2 st hmono hinv)

theorem sessInv_reachable (uaHash : String → String) (ttl t0 : ℤ)
    (s : ℤ × SessionState)
    (hreach : Relation.ReflTransGen (SessStep uaHash ttl)
      (t0, initSessionState t0) s) : SessInv s.1 s.2 := by
  induction hreach with
  | refl => exact sessInv_init t0
  | tail _ hstep ih => exact sessInv_step uaHash ttl _ _ hstep ih

/-- A session id that is no longer usable: handed out in the past, and
either revoked or purged from the active map. -/
def DeadId (st : SessionState) (sid : String) : Prop :=
  sid ∈ st.used_ids
    ∧ (sid ∈ st.revoked_sessions ∨ alookup sid st.active_sessions = none)

theorem deadId_revoke (tR : ℤ) (st : SessionState) (x reason sid : String)
    (hd : DeadId st sid) : DeadId (revoke_session tR st x reason) sid := by
  obtain ⟨act, rev, users, lc, used⟩ := st
  obtain ⟨hused, hdead⟩ := hd
  cases hx : alookup x act with
  | none =>
      rw [revoke_session]
      dsimp only at hx ⊢
      rw [hx]
      exact ⟨hused, hdead⟩
  | some sd =>
      rw [revoke_session]
      dsimp only at hx hused hdead ⊢
      rw [hx]
      refine ⟨hused, ?_⟩
      rcases hdead with hdead | hdead
      · exact Or.inl ((mem_revoked_append rev x sid).mpr (Or.inl hdead))
      · have hne : sid ≠ x := by
          intro hh
          rw [hh, hx] at hdead
          cases hdead
        refine Or.inr ?_
        show alookup sid (aset x _ act) = none
        rw [alookup_aset, if_neg hne]
        exact hdead

theorem deadId_purge (st : SessionState) (x sid : String) (hd : DeadId st sid) :
    DeadId { st with
      revoked_sessions := st.revoked_sessions.erase x
      active_sessions := aremove x st.active_sessions } sid := by
  obtain ⟨act, rev, users, lc, used⟩ := st
  obtain ⟨hused, hdead⟩ := hd
  refine ⟨hused, ?_⟩
  by_cases hne : sid = x
  · refine Or.inr ?_
    show alookup sid (aremove x act) = none
    rw [alookup_aremove, if_pos hne]
  · rcases hdead with hdead | hdead
    · exact Or.inl ((List.mem_erase_of_ne hne).mpr hdead)
    · refine Or.inr ?_
      show alookup sid (aremove x act) = none
      rw [alookup_aremove, if_neg hne]
      exact hdead

theorem deadId_set_lastCleanup (t : ℤ) (st : SessionState) (sid : String)
    (hd : DeadId st sid) : DeadId { st with last_cleanup := t } sid := by
  obtain ⟨act, rev, users, lc, used⟩ := st
  exact hd

theorem deadId_cleanup (now : ℤ) (st : SessionState) (sid : String)
    (hd : DeadId st sid) : DeadId (_cleanup_expired_sessions now st) sid := by
  rw [_cleanup_expired_sessions]
  by_cases h : now - st.last_cleanup < 300
  · rw [if_pos h]; exact hd
  · rw [if_neg h]
    dsimp only
    have h1 : ∀ (l : List String) (s : SessionState), DeadId s sid →
        DeadId (l.foldl (fun acc x => revoke_session now acc x "expired") s) sid := by
      intro l
      induction l with
      | nil => intro s hs; exact hs
      | cons a rest ih =>
          intro s hs
          rw [List.foldl_cons]
          exact ih _ (deadId_revoke now s a "expired" sid hs)
    have h2 : ∀ (l : List String) (s : SessionState), DeadId s sid →
        DeadId (l.foldl (fun acc x =>
          { acc with
            revoked_sessions := acc.revoked_sessions.erase x
            active_sessions := aremove x acc.active_sessions }) s) sid := by
      intro l
      induction l with
      | nil => intro s hs; exact hs
      | cons a rest ih =>
          intro s hs
          rw [List.foldl_cons]
          exact ih _ (deadId_purge s a sid hs)
    exact deadId_set_lastCleanup now _ sid (h2 _ _ (h1 _ _ hd))

theorem deadId_getuser (now : ℤ) (st : SessionState) (u sid : String)
    (hd : DeadId st sid) : DeadId (_get_user_sessions now st u).1 sid := by
  cases hu : alookup u st.user_sessions with
  | none =>
      rw [getuser_snd_none now st u hu]
      exact hd
  | some ids0 =>
      rw [getuser_snd_some now st u ids0 hu]
      obtain ⟨act, rev, users, lc, used⟩ := st
      exact hd

theorem deadId_evict (now : ℤ) (st : SessionState) (current : List String)
    (sid : String) (hd : DeadId st sid) :
    DeadId (_evict_if_full now st current) sid := by
  rw [_evict_if_full]
  by_cases h : 5 ≤ current.length
  · rw [if_pos h]
    cases ho : oldestSession st current
    · exact hd
    · exact deadId_revoke now st _ "session_limit_exceeded" sid hd
  · rw [if_neg h]
    exact hd

theorem deadId_insert (now ttl : ℤ) (uaHash : String → String) (st : SessionState)
    (new_sid u ip ua sid : String) (fp : Option String)
    (hfresh : new_sid ∉ st.used_ids) (hd : DeadId st sid) :
    DeadId (_insert_new_session now ttl uaHash st new_sid u ip ua fp) sid := by
  obtain ⟨act, rev, users, lc, used⟩ := st
  obtain ⟨hused, hdead⟩ := hd
  rw [_insert_new_session]
  dsimp only at hused hdead hfresh ⊢
  refine ⟨List.mem_append_left _ hused, ?_⟩
  rcases hdead with hdead | hdead
  · exact Or.inl hdead
  · have hne : sid ≠ new_sid := by
      intro hh
      exact hfresh (hh ▸ hused)
    refine Or.inr ?_
    show alookup sid (aset new_sid _ act) = none
    rw [alookup_aset, if_neg hne]
    exact hdead

theorem deadId_create (now ttl : ℤ) (uaHash : String → String) (st : SessionState)
    (id u ip ua sid : String) (fp : Option String)
    (hfresh : id ∉ st.used_ids) (hd : DeadId st sid) :
    DeadId (create_session now id uaHash ttl st u ip ua fp).1 sid := by
  rw [create_session]
  dsimp only
  apply deadId_insert
  · rw [used_ids_evict, used_ids_getuser, used_ids_cleanup]
    exact hfresh
  · exact deadId_evict now _ _ sid (deadId_getuser now _ u sid
      (deadId_cleanup now st sid hd))

theorem deadId_validate (now : ℤ) (uaHash : String → String) (ttl : ℤ)
    (st : SessionState) (x ip ua sid : String) (rim : Bool) (hd : DeadId st sid) :
    DeadId (validate_session now uaHash ttl st x ip ua rim).1 sid := by
  obtain ⟨act, rev, users, lc, used⟩ := st
  rw [validate_session]
  dsimp only
  cases hx : alookup x act with
  | none => exact hd
  | some sd =>
      dsimp only
      by_cases h1 : x ∈ rev
      · rw [if_pos h1]
        exact hd
      · rw [if_neg h1]
        by_cases h2 : sd.expires_at < now
        · rw [if_pos h2]
          exact deadId_revoke now ⟨act, rev, users, lc, used⟩ x "expired" sid hd
        · rw [if_neg h2]
          cases ha : sd.is_active with
          | false => exact hd
          | true =>
              by_cases h4 : (rim && decide (sd.client_ip ≠ ip)
                  && !ipTolerated sd.client_ip ip) = true
              · rw [if_pos h4]
                exact hd
              · rw [if_neg h4]
                obtain ⟨hused, hdead⟩ := hd
                dsimp only at hused hdead
                refine ⟨hused, ?_⟩
                rcases hdead with hdead | hdead
                · exact Or.inl hdead
                · have hne : sid ≠ x := by
                    intro hh
                    rw [hh, hx] at hdead
                    cases hdead
                  refine Or.inr ?_
                  show alookup sid (aset x _ act) = none
                  rw [alookup_aset, if_neg hne]
                  exact hdead

theorem deadId_revokeUser (now : ℤ) (st : SessionState) (user sid : String)
    (except_session : Option String) (hd : DeadId st sid) :
    DeadId (revoke_user_sessions now st user except_session) sid := by
  rw [revoke_user_sessions]
  have hfold : ∀ (l : List String) (s : SessionState), DeadId s sid →
      DeadId (l.foldl (fun acc x =>
        if except_session = some x then acc
        else revoke_session now acc x "user_logout_all") s) sid := by
    intro l
    induction l with
    | nil => intro s hs; exact hs
    | cons a rest ih =>
        intro s hs
        rw [List.foldl_cons]
        by_cases h : except_session = some a
        · rw [if_pos h]
          exact ih s hs
        · rw [if_neg h]
          exact ih _ (deadId_revoke now s a "user_logout_all" sid hs)
  exact hfold _ _ (deadId_getuser now st user sid hd)

theorem deadId_step (uaHash : String → String) (ttl : ℤ) (s s2 : ℤ × SessionState)
    (hstep : SessStep uaHash ttl s s2) (sid : String) (hd : DeadId s.2 sid) :
    DeadId s2.2 sid := by
  cases hstep with
  | create now now2 st id user ip ua fp hmono hfresh =>
      exact deadId_create now2 ttl uaHash st id user ip ua sid fp hfresh hd
  | validate now now2 st x ip ua rim hmono =>
      exact deadId_validate now2 uaHash ttl st x ip ua sid rim hd
  | revoke now now2 st x reason hmono =>
      exact deadId_revoke now2 st x reason sid hd
  | revokeUser now now2 st user except_session hmono =>
      exact deadId_revokeUser now2 st user sid except_session hd

theorem deadId_reachable (uaHash : String → String) (ttl : ℤ)
    (s s2 : ℤ × SessionState)
    (hreach : Relation.ReflTransGen (SessStep uaHash ttl) s s2)
    (sid : String) (hd : DeadId s.2 sid) : DeadId s2.2 sid := by
  induction hreach with
  | refl => exact hd
  | tail _ hstep ih => exact deadId_step uaHash ttl _ _ hstep sid ih

theorem validate_none_of_dead (now : ℤ) (uaHash : String → String) (ttl : ℤ)
    (st : SessionState) (sid ip ua : String) (rim : Bool) (hd : DeadId st sid) :
    (validate_session now uaHash ttl st sid ip ua rim).2 = none := by
  obtain ⟨act, rev, users, lc, used⟩ := st
  obtain ⟨hused, hdead⟩ := hd
  rw [validate_session]
  dsimp only at hdead ⊢
  cases hx : alookup sid act with
  | none => rfl
  | some sd =>
      dsimp only
      rcases hdead with hdead | hdead
      · rw [if_pos hdead]
      · rw [hx] at hdead
        cases hdead

theorem cap_of_inv (now : ℤ) (st : SessionState) (hinv : SessInv now st) :
    ∀ u (l : List String), l.Nodup → (∀ sid ∈ l, IsLiveFor now st u sid) →
      l.length ≤ 5 := by
  obtain ⟨a1, a2, a8, a5, a3, a6, a7⟩ := hinv
  intro u l hnd hlive
  cases hu : alookup u st.user_sessions with
  | none =>
      cases l with
      | nil => simp
      | cons a l2 =>
          have hla := hlive a (List.mem_cons_self ..)
          rw [isLiveFor_iff] at hla
          obtain ⟨hl, sd, h1, h2⟩ := hla
          obtain ⟨ids, hids, _⟩ := a6 a sd h1 hl
          rw [h2, hu] at hids
          cases hids
  | some ids =>
      have hsub : ∀ sid ∈ l, sid ∈ ids.filter (sessionLive now st) := by
        intro sid hs
        have hla := hlive sid hs
        rw [isLiveFor_iff] at hla
        obtain ⟨hl, sd, h1, h2⟩ := hla
        obtain ⟨ids2, hids2, hmem⟩ := a6 sid sd h1 hl
        rw [h2, hu] at hids2
        cases hids2
        exact List.mem_filter.mpr ⟨hmem, hl⟩
      calc l.length ≤ (ids.filter (sessionLive now st)).length :=
            List.Subperm.length_le (hnd.subperm hsub)
        _ ≤ 5 := a7 u ids hu

theorem session_cleanup_skip (now : ℤ) (st : SessionState)
    (h : now - st.last_cleanup < 300) :
    _cleanup_expired_sessions now st = st := by
  rw [_cleanup_expired_sessions, if_pos h]

theorem revoke_active_self (tR : ℤ) (st : SessionState) (x reason : String)
    (sd : Session) (hx : alookup x st.active_sessions = some sd) :
    alookup x (revoke_session tR st x reason).active_sessions
      = some { sd with
          is_active := false
          revoked_at := some tR
          revoke_reason := some reason } := by
  obtain ⟨act, rev, users, lc, used⟩ := st
  rw [revoke_session]
  dsimp only at hx ⊢
  rw [hx]
  dsimp only
  rw [alookup_aset, if_pos rfl]

theorem insert_active (now ttl : ℤ) (uaHash : String → String) (st : SessionState)
    (new_sid u ip ua : String) (fp : Option String) :
    (_insert_new_session now ttl uaHash st new_sid u ip ua fp).active_sessions
      = aset new_sid
          { user_id := u, session_id := new_sid, client_ip := ip,
            user_agent_hash := uaHash ua, device_fingerprint := fp,
            created_at := now, last_accessed := now,
            expires_at := now + ttl * 60, access_count := 0, is_active := true,
            revoked_at := none, revoke_reason := none }
          st.active_sessions := rfl

/-- `create_session` for a user already holding 5 live sessions, with the
lazy sweep not due: it returns the fresh id, and first revokes the user's
live session with minimal `created_at`, marking it inactive with reason
`session_limit_exceeded`, before storing the new session. -/
theorem create_at_cap (now ttl : ℤ) (uaHash : String → String) (st : SessionState)
    (id u ip ua : String) (fp : Option String) (l : List String)
    (hinv : SessInv now st) (hfresh : id ∉ st.used_ids)
    (hclean : now - st.last_cleanup < 300)
    (hnd : l.Nodup) (hlen : l.length = 5)
    (hlive : ∀ sid ∈ l, IsLiveFor now st u sid) :
    (create_session now id uaHash ttl st u ip ua fp).2 = id
    ∧ ∃ oldest, oldest ≠ id ∧ IsLiveFor now st u oldest
        ∧ (∀ sid2, IsLiveFor now st u sid2 →
            createdOf st oldest ≤ createdOf st sid2)
        ∧ (alookup oldest
            (create_session now id uaHash ttl st u ip ua fp).1.active_sessions).map
            (fun sd => (sd.is_active, sd.revoke_reason))
          = some (false, some "session_limit_exceeded")
        ∧ (alookup id
            (create_session now id uaHash ttl st u ip ua fp).1.active_sessions).map
            (fun sd => (sd.user_id, sd.is_active))
          = some (u, true) := by
  obtain ⟨a1, a2, a8, a5, a3, a6, a7⟩ := hinv
  have hl0 : ∃ s0, s0 ∈ l := by
    cases l with
    | nil => simp at hlen
    | cons a r => exact ⟨a, List.mem_cons_self ..⟩
  obtain ⟨s0, hs0⟩ := hl0
  have h0 := hlive s0 hs0
  rw [isLiveFor_iff] at h0
  obtain ⟨h0live, sd0, h0a, h0u⟩ := h0
  obtain ⟨ids0, hu, _⟩ := a6 s0 sd0 h0a h0live
  rw [h0u] at hu
  have hmemflt : ∀ sid2, IsLiveFor now st u sid2 →
      sid2 ∈ ids0.filter (sessionLive now st) := by
    intro sid2 h2
    rw [isLiveFor_iff] at h2
    obtain ⟨h2live, sd2, h2a, h2u⟩ := h2
    obtain ⟨ids2, hids2, hmem2⟩ := a6 sid2 sd2 h2a h2live
    rw [h2u, hu] at hids2
    cases hids2
    exact List.mem_filter.mpr ⟨hmem2, h2live⟩
  have hfull : 5 ≤ (ids0.filter (sessionLive now st)).length := by
    have hsub : ∀ sid ∈ l, sid ∈ ids0.filter (sessionLive now st) :=
      fun sid hx => hmemflt sid (hlive sid hx)
    have hsp := List.Subperm.length_le (hnd.subperm hsub)
    omega
  have hne : ids0.filter (sessionLive now st) ≠ [] := by
    intro hh
    rw [hh] at hfull
    simp at hfull
  have hpair : _get_user_sessions now st u
      = ({ st with
            user_sessions := aset u (ids0.filter (sessionLive now st))
              st.user_sessions },
         ids0.filter (sessionLive now st)) :=
    getuser_snd_some now st u ids0 hu
  obtain ⟨oldest, ho, homem, homin⟩ := oldestSession_spec
    ({ st with
        user_sessions := aset u (ids0.filter (sessionLive now st))
          st.user_sessions })
    (ids0.filter (sessionLive now st)) hne
  have holive : sessionLive now st oldest = true := List.of_mem_filter homem
  have hoid : oldest ∈ ids0 := List.mem_of_mem_filter homem
  have holive2 := holive
  rw [sessionLive_iff] at holive2
  obtain ⟨sdo, hoa, hoact, honrev, hoexp⟩ := holive2
  have houser : sdo.user_id = u := a3 u ids0 oldest sdo hu hoid hoa
  have hoLiveFor : IsLiveFor now st u oldest :=
    ⟨sdo, hoa, houser, hoact, honrev, hoexp⟩
  have hne_id : oldest ≠ id := by
    intro hh
    exact hfresh (hh ▸ a1 oldest sdo hoa)
  have hevict : _evict_if_full now
      ({ st with
          user_sessions := aset u (ids0.filter (sessionLive now st))
            st.user_sessions })
      (ids0.filter (sessionLive now st))
      = revoke_session now
          ({ st with
              user_sessions := aset u (ids0.filter (sessionLive now st))
                st.user_sessions })
          oldest "session_limit_exceeded" := by
    rw [_evict_if_full, if_pos hfull, ho]
  have hlook3 := revoke_active_self now
    ({ st with
        user_sessions := aset u (ids0.filter (sessionLive now st))
          st.user_sessions })
    oldest "session_limit_exceeded" sdo hoa
  have hcr : (create_session now id uaHash ttl st u ip ua fp).1
      = _insert_new_session now ttl uaHash
          (revoke_session now
            ({ st with
                user_sessions := aset u (ids0.filter (sessionLive now st))
                  st.user_sessions })
            oldest "session_limit_exceeded") id u ip ua fp := by
    rw [create_session]
    dsimp only
    rw [session_cleanup_skip now st hclean, hpair]
    dsimp only
    rw [hevict]
  refine ⟨rfl, oldest, hne_id, hoLiveFor, ?_, ?_, ?_⟩
  · intro sid2 h2
    exact homin sid2 (hmemflt sid2 h2)
  · rw [hcr, insert_active, alookup_aset, if_neg hne_id, hlook3]
    rfl
  · rw [hcr, insert_active, alookup_aset, if_pos rfl]
    rfl

/-- The user-agent hash of the concrete traces. -/
def demoUaHash : String → String := fun _ => "uah"

/-- **C6.** Session cap invariant with oldest-first eviction: in every
state of the session manager reachable from start-up, each user has at
most 5 sessions that are present, `is_active`, unrevoked, and unexpired;
`create_session` for a user already holding 5 such sessions (with the
lazy sweep not due) returns the fresh id and first revokes that user's
session with the oldest `created_at`, with reason
`session_limit_exceeded`; and a session id, once in `_revoked_sessions`,
never validates in any later reachable state. -/
theorem session_cap_oldest_eviction_revoked_never_validates
    (uaHash : String → String) (ttl t0 now : ℤ) (st : SessionState)
    (hreach : Relation.ReflTransGen (SessStep uaHash ttl)
      (t0, initSessionState t0) (now, st)) :
    (∀ u (l : List String), l.Nodup → (∀ sid ∈ l, IsLiveFor now st u sid) →
      l.length ≤ 5)
    ∧ (∀ (id u ip ua : String) (fp : Option String) (l : List String),
        id ∉ st.used_ids → now - st.last_cleanup < 300 →
        l.Nodup → l.length = 5 → (∀ sid ∈ l, IsLiveFor now st u sid) →
        (create_session now id uaHash ttl st u ip ua fp).2 = id
        ∧ ∃ oldest, oldest ≠ id ∧ IsLiveFor now st u oldest
            ∧ (∀ sid2, IsLiveFor now st u sid2 →
                createdOf st oldest ≤ createdOf st sid2)
            ∧ (alookup oldest
                (create_session now id uaHash ttl st u ip ua fp).1.active_sessions).map
                (fun sd => (sd.is_active, sd.revoke_reason))
              = some (false, some "session_limit_exceeded")
            ∧ (alookup id
                (create_session now id uaHash ttl st u ip ua fp).1.active_sessions).map
                (fun sd => (sd.user_id, sd.is_active))
              = some (u, true))
    ∧ (∀ sid, sid ∈ st.revoked_sessions →
        ∀ now2 st2, Relation.ReflTransGen (SessStep uaHash ttl) (now, st) (now2, st2) →
          ∀ (now3 : ℤ) (ip ua : String) (rim : Bool),
            (validate_session now3 uaHash ttl st2 sid ip ua rim).2 = none) := by
  have hinv := sessInv_reachable uaHash ttl t0 (now, st) hreach
  refine ⟨cap_of_inv now st hinv, ?_, ?_⟩
  · intro id u ip ua fp l hfresh hclean hnd hlen hlive
    exact create_at_cap now ttl uaHash st id u ip ua fp l hinv hfresh hclean
      hnd hlen hlive
  · intro sid hsid now2 st2 hreach2 now3 ip ua rim
    have hdead : DeadId st sid := ⟨hinv.2.2.1 sid hsid, Or.inl hsid⟩
    exact validate_none_of_dead now3 uaHash ttl st2 sid ip ua rim
      (deadId_reachable uaHash ttl (now, st) (now2, st2) hreach2 sid hdead)

/-- Concrete two-step trace exercising C6: create a session, revoke it,
and observe that the revoked id no longer validates. -/
theorem session_cap_oldest_eviction_revoked_never_validates_witness :
    (validate_session 3 demoUaHash 30
        (revoke_session 2 (create_session 1 "s1" demoUaHash 30
          (initSessionState 0) "u" "1.2.3.4" "ua" none).1 "s1" "manual")
        "s1" "1.2.3.4" "ua" true).2 = none := by
  have h := session_cap_oldest_eviction_revoked_never_validates demoUaHash 30 0 2 _
    (Relation.ReflTransGen.tail
      (Relation.ReflTransGen.tail Relation.ReflTransGen.refl
        (SessStep.create 0 1 (initSessionState 0) "s1" "u" "1.2.3.4" "ua" none
          (by decide) (by simp [initSessionState])))
      (SessStep.revoke 1 2 _ "s1" "manual" (by decide)))
  exact h.2.2 "s1" (by decide) 2 _ Relation.ReflTransGen.refl 3 "1.2.3.4" "ua" true

end Sectify
